import Mathlib

/-!
Verification of the leakdetector static analyzer (Go sources under
internal/parser, internal/analyzer).  The Go code is shallowly embedded:
Go structs become Lean structures, Go maps that are only read through
key lookup become association lists with first-match lookup, Go maps
that are iterated become association lists with unique keys kept in
first-insertion order (a deterministic refinement of Go's unspecified
map iteration order), and Go loops become fuel-indexed recursions where
the fuel is instantiated large enough that it never runs out on inputs
the Go loop terminates on.
-/

namespace LeakCheck

/-- Kind of a lexical token (Go type TokenType, analyzer/types). -/
inductive TokenType where
  | eof
  | ident
  | number
  | string
  | keyword
  | operator
  | punctuation
  | newline
deriving DecidableEq, Repr

/-- Lexical token (Go struct Token). -/
structure Token where
  type : TokenType
  value : String
  line : Nat
  column : Nat
deriving DecidableEq, Repr

/-- Class member variable (Go struct Member). -/
structure Member where
  name : String
  type : String
  isPointer : Bool
  isArray : Bool
  line : Nat
deriving DecidableEq, Repr

/-- Dynamic memory allocation record (Go struct Allocation). -/
structure Allocation where
  varName : String
  isArray : Bool
  line : Nat
deriving DecidableEq, Repr

/-- Dynamic memory deallocation record (Go struct Deallocation). -/
structure Deallocation where
  varName : String
  isArray : Bool
  line : Nat
deriving DecidableEq, Repr

/-- Pointer alias record for an assignment target = source (Go struct PointerAlias). -/
structure PointerAlias where
  sourceVar : String
  targetVar : String
  line : Nat
deriving DecidableEq, Repr

/-- Class method, constructor or destructor (Go struct Function). -/
structure Function where
  name : String
  isDestructor : Bool
  startLine : Nat
  endLine : Nat
  allocations : List Allocation
  deallocations : List Deallocation
  methodCalls : List String
  aliases : List PointerAlias
deriving DecidableEq, Repr

/-- Parsed C++ class or struct (Go struct Class). -/
structure Class where
  name : String
  file : String
  startLine : Nat
  endLine : Nat
  members : List Member
  ctor : Option Function
  dtor : Option Function
  methods : List Function
deriving DecidableEq, Repr

/-- Detected memory leak (Go struct Leak). -/
structure Leak where
  file : String
  line : Nat
  className : String
  varName : String
  reason : String
  severity : String
deriving DecidableEq, Repr

/-- Lookup in an association list, first match wins (Go map read m[k]). -/
def lookupKey {α : Type} : List (String × α) → String → Option α
  | [], _ => none
  | (k, v) :: rest, key => if k = key then some v else lookupKey rest key

/-- Insert into an association list keeping unique keys: an existing key has
its value overwritten in place, a new key is appended.  This models a Go
map write m[k] = v for maps that are later iterated, fixing the iteration
order to first-insertion order. -/
def insertEntry {α : Type} (m : List (String × α)) (k : String) (v : α) : List (String × α) :=
  if (lookupKey m k).isSome then
    m.map (fun p => if p.1 = k then (k, v) else p)
  else
    m ++ [(k, v)]

/-- Maximum depth to follow method calls (Go constant MaxMethodDepth). -/
def MaxMethodDepth : Nat := 5

/-- Pointer members of a class: Go analyzeClass builds the map
pointerMembers from every member with IsPointer set. -/
def pointerMembers (c : Class) : List (String × Member) :=
  c.members.foldl (fun m mem => if mem.isPointer then insertEntry m mem.name mem else m) []

/-- Constructor allocations map: Go analyzeClass builds allocatedVars from
class.Constructor.Allocations, later writes shadowing earlier ones. -/
def allocatedVars (c : Class) : List (String × Allocation) :=
  match c.ctor with
  | none => []
  | some f => f.allocations.foldl (fun m a => insertEntry m a.varName a) []

/-- Method map built by Go analyzeClass: map from method name to the
method, a later method with the same name overwriting an earlier one. -/
def methodLookup (ms : List Function) (n : String) : Option Function :=
  ms.foldl (fun acc m => if m.name = n then some m else acc) none

/-- State threaded by collectDeallocations: the result map (read only
through key lookup, so the newest insertion is simply consed on) and the
visited function-name set. -/
structure CState where
  result : List (String × Deallocation)
  visited : List String
deriving DecidableEq, Repr

/-- Recursive multi-level deallocation collection (Go collectDeallocations):
returns when the depth budget is exhausted or the function name was
already visited; otherwise marks the function visited, records its direct
deallocations (later ones shadow earlier ones in the map), and recurses
into each called method at depth - 1, threading the state (including the
visited set) across siblings. -/
def collectDeallocations (methods : List Function) : Nat → Function → CState → CState
  | 0, _, st => st
  | Nat.succ d, fn, st =>
    if fn.name ∈ st.visited then st
    else
      fn.methodCalls.foldl
        (fun acc n =>
          match methodLookup methods n with
          | some m => collectDeallocations methods d m acc
          | none => acc)
        ⟨fn.deallocations.foldl (fun r dl => (dl.varName, dl) :: r) st.result,
         fn.name :: st.visited⟩

/-- Iteration over a function's MethodCalls list inside
collectDeallocations, as its own function: each name is looked up in the
method map and, when found, recursed into with the child depth. -/
def collectFromCalls (methods : List Function) (d : Nat) (ns : List String)
    (st : CState) : CState :=
  ns.foldl
    (fun acc n =>
      match methodLookup methods n with
      | some m => collectDeallocations methods d m acc
      | none => acc) st

/-- Unfolding: exhausted depth budget. -/
theorem collectDeallocations_zero (methods : List Function) (fn : Function) (st : CState) :
    collectDeallocations methods 0 fn st = st := rfl

/-- Unfolding: positive depth budget. -/
theorem collectDeallocations_succ (methods : List Function) (d : Nat) (fn : Function)
    (st : CState) :
    collectDeallocations methods (d + 1) fn st =
      if fn.name ∈ st.visited then st
      else
        collectFromCalls methods d fn.methodCalls
          ⟨fn.deallocations.foldl (fun r dl => (dl.varName, dl) :: r) st.result,
           fn.name :: st.visited⟩ := rfl

/-- Unfolding: empty call list. -/
theorem collectFromCalls_nil (methods : List Function) (d : Nat) (st : CState) :
    collectFromCalls methods d [] st = st := rfl

/-- Unfolding: nonempty call list. -/
theorem collectFromCalls_cons (methods : List Function) (d : Nat) (n : String)
    (ns : List String) (st : CState) :
    collectFromCalls methods d (n :: ns) st =
      collectFromCalls methods d ns
        (match methodLookup methods n with
         | some m => collectDeallocations methods d m st
         | none => st) := rfl

/-- Destructor-reachable deallocations of a class: Go analyzeClass runs
collectDeallocations from the destructor with depth MaxMethodDepth and
empty result/visited when a destructor exists. -/
def deallocatedVars (c : Class) : List (String × Deallocation) :=
  match c.dtor with
  | none => []
  | some f => (collectDeallocations c.methods MaxMethodDepth f ⟨[], []⟩).result

/-- Pointer aliases of every function of the class in the order Go
buildAliasMap scans them: constructor, destructor, then methods. -/
def classAliases (c : Class) : List PointerAlias :=
  (match c.ctor with | none => [] | some f => f.aliases) ++
  (match c.dtor with | none => [] | some f => f.aliases) ++
  c.methods.flatMap (fun m => m.aliases)

/-- Undirected alias adjacency (Go buildAliasMap): each alias edge appends
the target to the source's list and the source to the target's list; this
function returns the per-key list aliasMap[v] in insertion order. -/
def aliasMapOf (c : Class) (v : String) : List String :=
  (classAliases c).flatMap (fun al =>
    (if al.sourceVar = v then [al.targetVar] else []) ++
    (if al.targetVar = v then [al.sourceVar] else []))

/-- Alias-aware release check (Go isVarDeallocated): the variable is a key
of the deallocation map, or some name in its alias list is. -/
def isVarDeallocated (varName : String) (deallocMap : List (String × Deallocation))
    (aliasMap : String → List String) : Bool :=
  (lookupKey deallocMap varName).isSome ||
  (aliasMap varName).any (fun a => (lookupKey deallocMap a).isSome)

/-- Alias-aware deallocation lookup (Go findDeallocation): the variable's
own entry if present, otherwise the entry of the first alias name that
has one. -/
def findDeallocation (varName : String) (deallocMap : List (String × Deallocation))
    (aliasMap : String → List String) : Option Deallocation :=
  match lookupKey deallocMap varName with
  | some d => some d
  | none => (aliasMap varName).findSome? (fun a => lookupKey deallocMap a)

/-- Reason text of a Rule-1 missing-deallocation leak. -/
def missingReason : String := "allocated with 'new' but not deleted in destructor"

/-- Reason text of a Rule-1 array-form mismatch leak. -/
def arrayMismatchReason : String :=
  "allocated with 'new[]' but deleted with 'delete' instead of 'delete[]'"

/-- Reason text of a Rule-1 scalar-form mismatch leak. -/
def scalarMismatchReason : String :=
  "allocated with 'new' but deleted with 'delete[]' instead of 'delete'"

/-- Reason text of a Rule-2 reassignment leak inside method m. -/
def rule2Reason (m : String) : String :=
  "pointer reassigned with 'new' without deleting previous allocation (in " ++ m ++ ")"

/-- Reason text of a Rule-3 double-free leak through alias target t. -/
def rule3Reason (t : String) : String :=
  "pointer aliased to '" ++ t ++ "' and both are deleted (potential double-free)"

/-- Reason text of a Rule-4 no-destructor leak. -/
def rule4Reason : String := "pointer member allocated but class has no destructor"

/-- Rule 1 body for one allocatedVars entry: a missing-deallocation error
when the variable is not released, otherwise an arity-mismatch leak when
the allocation and the found deallocation disagree on array form. -/
def rule1For (c : Class) (dvars : List (String × Deallocation)) (amap : String → List String)
    (entry : String × Allocation) : List Leak :=
  if !(isVarDeallocated entry.1 dvars amap) then
    [⟨c.file, entry.2.line, c.name, entry.1, missingReason, "error"⟩]
  else
    match findDeallocation entry.1 dvars amap with
    | some dealloc =>
      if entry.2.isArray && !dealloc.isArray then
        [⟨c.file, dealloc.line, c.name, entry.1, arrayMismatchReason, "error"⟩]
      else if !entry.2.isArray && dealloc.isArray then
        [⟨c.file, dealloc.line, c.name, entry.1, scalarMismatchReason, "warning"⟩]
      else []
    | none => []

/-- Rule 1 of Go analyzeClass: iterate the constructor allocation map. -/
def rule1Leaks (c : Class) : List Leak :=
  (allocatedVars c).flatMap (rule1For c (deallocatedVars c) (aliasMapOf c))

/-- Rule 2 body for one allocation of one method: warn when the allocated
variable is a pointer member, the method has no earlier deallocation of
it, and it was also allocated in the constructor. -/
def rule2For (c : Class) (avars : List (String × Allocation))
    (pmembers : List (String × Member)) (method : Function) (alloc : Allocation) : List Leak :=
  if (lookupKey pmembers alloc.varName).isSome then
    if !(method.deallocations.any
        (fun dl => dl.varName = alloc.varName && dl.line < alloc.line)) then
      if (lookupKey avars alloc.varName).isSome then
        [⟨c.file, alloc.line, c.name, alloc.varName, rule2Reason method.name, "warning"⟩]
      else []
    else []
  else []

/-- Rule 2 of Go analyzeClass: scan every allocation of every method. -/
def rule2Leaks (c : Class) : List Leak :=
  c.methods.flatMap (fun m =>
    m.allocations.flatMap (rule2For c (allocatedVars c) (pointerMembers c) m))

/-- Rule 3 body for one alias of one method: error when the alias source
is a pointer member and the method deletes both the source and the
target. -/
def rule3For (c : Class) (pmembers : List (String × Member)) (method : Function)
    (al : PointerAlias) : List Leak :=
  if (lookupKey pmembers al.sourceVar).isSome then
    if (method.deallocations.any (fun dl => dl.varName = al.sourceVar)) &&
        (method.deallocations.any (fun dl => dl.varName = al.targetVar)) then
      [⟨c.file, al.line, c.name, al.sourceVar, rule3Reason al.targetVar, "error"⟩]
    else []
  else []

/-- Rule 3 of Go analyzeClass: scan every alias of every method. -/
def rule3Leaks (c : Class) : List Leak :=
  c.methods.flatMap (fun m => m.aliases.flatMap (rule3For c (pointerMembers c) m))

/-- Rule 4 of Go analyzeClass: when the class has no destructor, report
every pointer member that the constructor allocated. -/
def rule4Leaks (c : Class) : List Leak :=
  match c.dtor with
  | some _ => []
  | none =>
    (pointerMembers c).flatMap (fun p =>
      if (lookupKey (allocatedVars c) p.2.name).isSome then
        [⟨c.file, p.2.line, c.name, p.2.name, rule4Reason, "error"⟩]
      else [])

/-- Leak analysis of one merged class (Go analyzeClass): skip classes with
no pointer member, otherwise emit Rule 1 through Rule 4 leaks in order. -/
def analyzeClass (c : Class) : List Leak :=
  if (pointerMembers c).isEmpty then []
  else rule1Leaks c ++ rule2Leaks c ++ rule3Leaks c ++ rule4Leaks c

/-- Leak analysis of a list of classes (Go Analyze / AnalyzeClasses). -/
def analyzeClasses (cs : List Class) : List Leak :=
  cs.flatMap analyzeClass

/-! Registry: merging class records across files (Go registry.go). -/

/-- File extension (Go filepath.Ext): the suffix beginning at the final
dot in the final slash-separated element of the path, empty when that
element has no dot. -/
def fileExtScan : List Char → List Char → Option (List Char)
  | [], _ => none
  | c :: rest, acc =>
    if c = '/' then none
    else if c = '.' then some (c :: acc)
    else fileExtScan rest (c :: acc)

/-- File extension of a path as a string. -/
def fileExt (s : String) : String :=
  match fileExtScan s.data.reverse [] with
  | some cs => String.mk cs
  | none => ""

/-- Base name (Go filepath.Base): last element of the path after
stripping trailing slashes; "." for the empty path, "/" when only
separators remain. -/
def baseName (s : String) : String :=
  if s = "" then "."
  else
    let stripped := s.data.reverse.dropWhile (fun c => c = '/')
    let kept := stripped.takeWhile (fun c => c ≠ '/')
    if stripped = [] then "/"
    else String.mk kept.reverse

/-- Substring test (Go strings.Contains s sub). -/
def containsStr (s sub : String) : Bool :=
  (s.data.tails.any (fun t => sub.data.isPrefixOf t))

/-- ASCII lowercasing of one character (the case Go strings.ToLower
performs on ASCII file extensions). -/
def lowerCh (c : Char) : Char :=
  if 'A' ≤ c ∧ c ≤ 'Z' then Char.ofNat (c.toNat + 32) else c

/-- Header-file test (Go isHeaderFile): the lowercased extension is .h,
.hpp or .hxx. -/
def isHeaderFile (filename : String) : Bool :=
  let ext := String.mk ((fileExt filename).data.map lowerCh)
  ext == ".h" || ext == ".hpp" || ext == ".hxx"

/-- Index of the last function with a given name in a list: Go
mergeClassInto builds methodMap by iterating target.Methods, a later
entry with the same name overwriting the pointer. -/
def lastIdxWithName (ms : List Function) (n : String) : Option Nat :=
  (ms.foldl (fun (acc : Option Nat × Nat) m =>
    (if m.name = n then some acc.2 else acc.1, acc.2 + 1)) (none, 0)).1

/-- Method-list merge of Go mergeClassInto: source methods with a new
name are appended; a source method whose name indexes an original target
method overwrites that entry when it has any allocations or
deallocations. -/
def mergeMethods (tms sms : List Function) : List Function :=
  sms.foldl (fun acc m =>
    match lastIdxWithName tms m.name with
    | none => acc ++ [m]
    | some i =>
      if m.allocations.length > 0 || m.deallocations.length > 0 then acc.set i m
      else acc) tms

/-- Merge of one incoming class record into the held record for the same
name (Go mergeClassInto, target mutated in place, modeled as a returned
record). -/
def mergeClassInto (target source : Class) : Class :=
  let targetIsHeader := isHeaderFile target.file
  let sourceIsHeader := isHeaderFile source.file
  let members :=
    if sourceIsHeader && !targetIsHeader then
      if source.members.length > 0 then source.members else target.members
    else if !sourceIsHeader && targetIsHeader then target.members
    else if target.members.length = 0 && source.members.length > 0 then source.members
    else target.members
  let ctor :=
    match target.ctor, source.ctor with
    | none, some sc => some sc
    | some tc, some sc =>
      if sc.allocations.length > 0 && tc.allocations.length = 0 then some sc else some tc
    | tc, none => tc
  let dtor :=
    match target.dtor, source.dtor with
    | none, some sd => some sd
    | some td, some sd =>
      if sd.deallocations.length > 0 && td.deallocations.length = 0 then some sd else some td
    | td, none => td
  let methods := mergeMethods target.methods source.methods
  let file :=
    if !containsStr target.file source.file && target.file != source.file then
      target.file ++ ", " ++ baseName source.file
    else target.file
  { target with
    members := members, ctor := ctor, dtor := dtor, methods := methods, file := file }

/-- Registry merge (Go MergeClasses): fold all accumulated class records
into one canonical record per name, in first-occurrence key order. -/
def mergeClasses (cs : List Class) : List (String × Class) :=
  cs.foldl (fun m c =>
    match lookupKey m c.name with
    | none => insertEntry m c.name c
    | some t => insertEntry m c.name (mergeClassInto t c)) []

/-! Lexer (Go lexer.go).  The Go code scans bytes; the embedding scans
characters, which agrees with the Go code on ASCII input (the letter and
digit classes are modeled with the ASCII predicates).  Each Go while loop
becomes a fuel-indexed recursion; every loop iteration advances the
position by at least one, so fuel input-length + 2 never runs out. -/

/-- Keyword set of the lexer (Go keywords map). -/
def keywords : List String :=
  ["class", "struct", "public", "private", "protected",
   "new", "delete", "virtual", "const", "static",
   "void", "int", "char", "float", "double",
   "bool", "long", "short", "unsigned", "signed",
   "if", "else", "for", "while", "do",
   "return", "nullptr", "NULL", "this",
   "template", "typename", "namespace", "using"]

/-- Lexer state (Go struct Lexer). -/
structure Lexer where
  input : List Char
  pos : Nat
  line : Nat
  column : Nat
  tokens : List Token
deriving Repr

/-- Character of the input at an index, the zero byte once out of range
(matching Go's peek default). -/
def charAt (l : List Char) (i : Nat) : Char := l.getD i (Char.ofNat 0)

/-- Go Lexer.peek: the next character, or the zero byte at the end. -/
def Lexer.peek (l : Lexer) : Char :=
  if l.pos + 1 < l.input.length then charAt l.input (l.pos + 1) else Char.ofNat 0

/-- Go Lexer.advance: step one character, tracking line and column. -/
def Lexer.advance (l : Lexer) : Lexer :=
  if l.pos < l.input.length then
    if charAt l.input l.pos = '\n' then
      { l with line := l.line + 1, column := 1, pos := l.pos + 1 }
    else
      { l with column := l.column + 1, pos := l.pos + 1 }
  else l

/-- Go Lexer.addToken: append a token carrying the current line/column. -/
def Lexer.addToken (l : Lexer) (t : TokenType) (v : String) : Lexer :=
  { l with tokens := l.tokens ++ [⟨t, v, l.line, l.column⟩] }

/-- Single-quote character, the string delimiter alternative. -/
def singleQuote : Char := Char.ofNat 39

/-- Backslash character. -/
def backslashChar : Char := Char.ofNat 92

/-- Loop consuming a // comment up to (excluding) the newline. -/
def consumeLineComment : Nat → Lexer → Lexer
  | 0, l => l
  | f + 1, l =>
    if l.pos < l.input.length ∧ charAt l.input l.pos ≠ '\n' then
      consumeLineComment f l.advance
    else l

/-- Loop consuming a block comment body: Go iterates while
pos < len(input) - 1, breaking after consuming a closing * /.  An
unterminated comment therefore stops one byte short of the end of the
input. -/
def consumeBlockComment : Nat → Lexer → Lexer
  | 0, l => l
  | f + 1, l =>
    if l.pos + 1 < l.input.length then
      if charAt l.input l.pos = '*' ∧ l.peek = '/' then l.advance.advance
      else consumeBlockComment f l.advance
    else l

/-- Go skipWhitespaceAndComments: discard whitespace, // comments and
block comments until something else is seen. -/
def skipWhitespaceAndComments : Nat → Lexer → Lexer
  | 0, l => l
  | f + 1, l =>
    if l.pos < l.input.length then
      let ch := charAt l.input l.pos
      if ch = ' ' ∨ ch = '\t' ∨ ch = '\r' ∨ ch = '\n' then
        skipWhitespaceAndComments f l.advance
      else if ch = '/' ∧ l.peek = '/' then
        skipWhitespaceAndComments f (consumeLineComment (l.input.length + 2) l)
      else if ch = '/' ∧ l.peek = '*' then
        skipWhitespaceAndComments f (consumeBlockComment (l.input.length + 2) l.advance.advance)
      else l
    else l

/-- Go skipPreprocessor: discard a # line, honoring backslash-newline
continuations. -/
def skipPreprocessor : Nat → Lexer → Lexer
  | 0, l => l
  | f + 1, l =>
    if l.pos < l.input.length ∧ charAt l.input l.pos ≠ '\n' then
      if charAt l.input l.pos = backslashChar ∧ l.peek = '\n' then
        skipPreprocessor f l.advance.advance
      else skipPreprocessor f l.advance
    else l

/-- Body loop of Go readString: copy characters into the builder, a
backslash escaping the next byte, stopping after the closing quote or at
a bare newline or the end of the input. -/
def readStringLoop (quote : Char) : Nat → Lexer → List Char → Lexer × List Char
  | 0, l, sb => (l, sb)
  | f + 1, l, sb =>
    if l.pos < l.input.length then
      let ch := charAt l.input l.pos
      if ch = backslashChar ∧ l.pos + 1 < l.input.length then
        let l2 := l.advance
        if l2.pos < l2.input.length then
          readStringLoop quote f l2.advance (sb ++ [ch, charAt l2.input l2.pos])
        else (l2, sb ++ [ch])
      else if ch = quote then (l.advance, sb ++ [ch])
      else if ch = '\n' then (l, sb)
      else readStringLoop quote f l.advance (sb ++ [ch])
    else (l, sb)

/-- Go readString: read a string or character literal token. -/
def readString (quote : Char) (l : Lexer) : Lexer :=
  let startLine := l.line
  let startCol := l.column
  let (l2, sb) := readStringLoop quote (l.input.length + 2) l.advance [quote]
  { l2 with tokens := l2.tokens ++ [⟨TokenType.string, String.mk sb, startLine, startCol⟩] }

/-- Letter class of the Go lexer (unicode.IsLetter on a byte), modeled
for ASCII input. -/
def isLetterCh (c : Char) : Bool := c.isAlpha

/-- Identifier-continuation loop of Go readIdentifier. -/
def readIdentLoop : Nat → Lexer → Lexer
  | 0, l => l
  | f + 1, l =>
    if l.pos < l.input.length then
      let ch := charAt l.input l.pos
      if isLetterCh ch || ch.isDigit || ch = '_' then readIdentLoop f l.advance
      else l
    else l

/-- Go readIdentifier: read an identifier or keyword token. -/
def readIdentifier (l : Lexer) : Lexer :=
  let startLine := l.line
  let startCol := l.column
  let start := l.pos
  let l2 := readIdentLoop (l.input.length + 2) l
  let value := String.mk ((l.input.drop start).take (l2.pos - start))
  let tt := if value ∈ keywords then TokenType.keyword else TokenType.ident
  { l2 with tokens := l2.tokens ++ [⟨tt, value, startLine, startCol⟩] }

/-- Number-continuation loop of Go readNumber: digits, dot, x, X and hex
letters. -/
def readNumberLoop : Nat → Lexer → Lexer
  | 0, l => l
  | f + 1, l =>
    if l.pos < l.input.length then
      let ch := charAt l.input l.pos
      if ch.isDigit || ch = '.' || ch = 'x' || ch = 'X' ||
          ('a' ≤ ch ∧ ch ≤ 'f') || ('A' ≤ ch ∧ ch ≤ 'F') then
        readNumberLoop f l.advance
      else l
    else l

/-- Go readNumber: read a number token. -/
def readNumber (l : Lexer) : Lexer :=
  let startLine := l.line
  let startCol := l.column
  let start := l.pos
  let l2 := readNumberLoop (l.input.length + 2) l
  let value := String.mk ((l.input.drop start).take (l2.pos - start))
  { l2 with tokens := l2.tokens ++ [⟨TokenType.number, value, startLine, startCol⟩] }

/-- Operator-start characters (Go isOperator). -/
def isOperatorChar (c : Char) : Bool :=
  c = '+' || c = '-' || c = '*' || c = '/' || c = '=' ||
  c = '<' || c = '>' || c = '!' || c = '&' || c = '|' ||
  c = '^' || c = '%' || c = '~'

/-- Two-character operator set of Go readOperator. -/
def twoCharOps : List String :=
  ["::", "->", "==", "!=", "<=", ">=", "&&", "||", "++", "--", "+=", "-=", "*=", "/="]

/-- Go readOperator: greedy two-character operator, else one character. -/
def readOperator (l : Lexer) : Lexer :=
  let startLine := l.line
  let startCol := l.column
  if l.pos + 1 < l.input.length then
    let two := String.mk [charAt l.input l.pos, charAt l.input (l.pos + 1)]
    if two ∈ twoCharOps then
      { l.advance.advance with
        tokens := l.tokens ++ [⟨TokenType.operator, two, startLine, startCol⟩] }
    else
      { l.advance with
        tokens := l.tokens ++
          [⟨TokenType.operator, String.mk [charAt l.input l.pos], startLine, startCol⟩] }
  else
    { l.advance with
      tokens := l.tokens ++
        [⟨TokenType.operator, String.mk [charAt l.input l.pos], startLine, startCol⟩] }

/-- Punctuation characters (Go isPunctuation). -/
def isPunctuationChar (c : Char) : Bool :=
  c = '\x7b' || c = '\x7d' || c = '(' || c = ')' ||
  c = '[' || c = ']' || c = ';' || c = ',' ||
  c = ':' || c = '.'

/-- Main loop of Go Tokenize: skip whitespace and comments, then
dispatch on the current character. -/
def tokenizeLoop : Nat → Lexer → Lexer
  | 0, l => l
  | f + 1, l =>
    if l.pos < l.input.length then
      let l := skipWhitespaceAndComments (l.input.length + 2) l
      if l.pos ≥ l.input.length then l
      else
        let ch := charAt l.input l.pos
        if ch = ':' ∧ l.peek = ':' then
          tokenizeLoop f ((l.addToken TokenType.operator "::").advance.advance)
        else if ch = '"' ∨ ch = singleQuote then tokenizeLoop f (readString ch l)
        else if ch = '#' then tokenizeLoop f (skipPreprocessor (l.input.length + 2) l)
        else if isLetterCh ch || ch = '_' then tokenizeLoop f (readIdentifier l)
        else if ch.isDigit then tokenizeLoop f (readNumber l)
        else if isOperatorChar ch then tokenizeLoop f (readOperator l)
        else if isPunctuationChar ch then
          tokenizeLoop f ((l.addToken TokenType.punctuation (String.mk [ch])).advance)
        else tokenizeLoop f l.advance
    else l

/-- Go Tokenize: run the main loop and append the final End token. -/
def tokenize (s : String) : List Token :=
  let l := tokenizeLoop (s.data.length + 2) ⟨s.data, 0, 1, 1, []⟩
  l.tokens ++ [⟨TokenType.eof, "", l.line, l.column⟩]

/-! Parser (Go parser.go), covering the inline-class path: parseClass and
everything it calls.  Go's mutable Parser becomes a record threaded
through the functions; each Go while loop becomes a fuel-indexed
recursion, with fuel token-count + 2, which never runs out because every
iteration advances the position. -/

/-- Zero-value token returned by Go Parser.current out of range. -/
def noToken : Token := ⟨TokenType.eof, "", 0, 0⟩

/-- Parser state (Go struct Parser without the accumulated classes). -/
structure Parser where
  tokens : List Token
  pos : Nat
  file : String
deriving Repr

/-- Raw indexed token access (Go p.tokens[i] under a bounds guard). -/
def tokAt (p : Parser) (i : Nat) : Token := p.tokens.getD i noToken

/-- Go Parser.current. -/
def Parser.current (p : Parser) : Token := p.tokens.getD p.pos noToken

/-- Go Parser.advance. -/
def Parser.advance (p : Parser) : Parser :=
  if p.pos < p.tokens.length then { p with pos := p.pos + 1 } else p

/-- Go Parser.isAtEnd. -/
def Parser.isAtEnd (p : Parser) : Bool :=
  p.pos ≥ p.tokens.length || p.current.type == TokenType.eof

/-- Go Parser.check. -/
def Parser.check (p : Parser) (t : TokenType) : Bool :=
  !p.isAtEnd && p.current.type == t

/-- Go Parser.checkValue. -/
def Parser.checkValue (p : Parser) (v : String) : Bool :=
  !p.isAtEnd && p.current.value == v

/-- Go Parser.checkKeyword. -/
def Parser.checkKeyword (p : Parser) (k : String) : Bool :=
  p.check TokenType.keyword && p.current.value == k

/-- Go Parser.matchValue: report whether the current token has the value
and advance past it when it does. -/
def Parser.matchValue (p : Parser) (v : String) : Bool × Parser :=
  if p.checkValue v then (true, p.advance) else (false, p)

/-- Go isDestructorStart: a tilde followed by the class name, or the
virtual keyword followed by a tilde. -/
def isDestructorStart (p : Parser) (className : String) : Bool :=
  (p.checkValue "~" &&
    (decide (p.pos + 1 < p.tokens.length) && (tokAt p (p.pos + 1)).value == className)) ||
  (p.checkKeyword "virtual" &&
    (decide (p.pos + 1 < p.tokens.length) && (tokAt p (p.pos + 1)).value == "~"))

/-- Go isConstructorStart: an identifier equal to the class name followed
by an opening parenthesis. -/
def isConstructorStart (p : Parser) (className : String) : Bool :=
  p.check TokenType.ident && p.current.value == className &&
  (decide (p.pos + 1 < p.tokens.length) && (tokAt p (p.pos + 1)).value == "(")

/-- Go findAssignmentTarget: scan up to 9 tokens backwards for an equals
sign, then up to 4 further tokens back for the first identifier that is
not the keyword this; the empty string when nothing matches. -/
def findAssignmentTarget (p : Parser) : String :=
  ((List.range 9).findSome? (fun d0 =>
    let d := d0 + 1
    if d ≤ p.pos then
      let i := p.pos - d
      if (tokAt p i).value == "=" then
        (List.range 4).findSome? (fun e0 =>
          let e := e0 + 1
          if e ≤ i then
            let tk := tokAt p (i - e)
            if tk.type == TokenType.ident && tk.value != "this" then some tk.value else none
          else none)
      else none
    else none)).getD ""

/-- Statement-skip loop of Go parseAllocation: advance to the next
semicolon or opening brace, remembering whether a bracket was seen. -/
def skipToStmtEnd : Nat → Bool → Parser → Bool × Parser
  | 0, isArr, p => (isArr, p)
  | f + 1, isArr, p =>
    if !p.isAtEnd && !p.checkValue ";" && !p.checkValue "\x7b" then
      skipToStmtEnd f (isArr || p.checkValue "[") p.advance
    else (isArr, p)

/-- Go parseAllocation: record the allocation at a new keyword, the
variable recovered by scanning backwards for its assignment target. -/
def parseAllocation (p : Parser) : Option Allocation × Parser :=
  let line := p.current.line
  let p1 := p.advance
  let isArray0 := p1.checkValue "["
  let varName := findAssignmentTarget p1
  if varName = "" then (none, p1)
  else
    let (isArray, p2) := skipToStmtEnd (p1.tokens.length + 2) isArray0 p1
    (some ⟨varName, isArray, line⟩, p2)

/-- Go parseDeallocation: record the deallocation at a delete keyword,
accepting an optional [] and an optional this-> prefix. -/
def parseDeallocation (p : Parser) : Option Deallocation × Parser :=
  let line := p.current.line
  let p1 := p.advance
  let (isArray, p2) :=
    if p1.checkValue "[" then
      let pa := p1.advance
      (true, (pa.matchValue "]").2)
    else (false, p1)
  if p2.checkKeyword "this" then
    let p3 := p2.advance
    if p3.checkValue "->" then
      let p4 := p3.advance
      if p4.check TokenType.ident then (some ⟨p4.current.value, isArray, line⟩, p4)
      else (none, p4)
    else (none, p3)
  else if p2.check TokenType.ident then (some ⟨p2.current.value, isArray, line⟩, p2)
  else (none, p2)

/-- Go checkPointerAlias: at an identifier, recognize the lookahead
pattern ident = ident followed by a semicolon, closing brace or comma,
the right-hand side not being the new keyword. -/
def checkPointerAlias (p : Parser) (targetName : String) (line : Nat) : Option PointerAlias :=
  if p.pos + 3 ≥ p.tokens.length then none
  else if (tokAt p (p.pos + 1)).value != "=" then none
  else
    let nextTok := tokAt p (p.pos + 2)
    if nextTok.type != TokenType.ident then none
    else if nextTok.value == "new" then none
    else
      let afterSource := tokAt p (p.pos + 3)
      if afterSource.value == ";" || afterSource.value == "\x7d" || afterSource.value == "," then
        some ⟨nextTok.value, targetName, line⟩
      else none

/-- Body loop of Go parseFunctionBody: balance braces while recording
allocations, deallocations, method calls and pointer aliases. -/
def parseFunctionBodyLoop : Nat → Nat → Function → Parser → Function × Parser
  | 0, _, fn, p => (fn, p)
  | f + 1, bc, fn, p =>
    if !p.isAtEnd && bc > 0 then
      if p.checkValue "\x7b" then parseFunctionBodyLoop f (bc + 1) fn p.advance
      else if p.checkValue "\x7d" then
        if bc = 1 then parseFunctionBodyLoop f 0 { fn with endLine := p.current.line } p.advance
        else parseFunctionBodyLoop f (bc - 1) fn p.advance
      else if p.checkKeyword "new" then
        let (alloc?, p1) := parseAllocation p
        match alloc? with
        | some a =>
          parseFunctionBodyLoop f bc { fn with allocations := fn.allocations ++ [a] } p1
        | none => parseFunctionBodyLoop f bc fn p1
      else if p.checkKeyword "delete" then
        let (dealloc?, p1) := parseDeallocation p
        match dealloc? with
        | some d =>
          parseFunctionBodyLoop f bc { fn with deallocations := fn.deallocations ++ [d] } p1
        | none => parseFunctionBodyLoop f bc fn p1
      else if p.check TokenType.ident then
        let identName := p.current.value
        let identLine := p.current.line
        let fn1 :=
          if decide (p.pos + 1 < p.tokens.length) && (tokAt p (p.pos + 1)).value == "(" then
            { fn with methodCalls := fn.methodCalls ++ [identName] }
          else fn
        let fn2 :=
          match checkPointerAlias p identName identLine with
          | some al => { fn1 with aliases := fn1.aliases ++ [al] }
          | none => fn1
        parseFunctionBodyLoop f bc fn2 p.advance
      else parseFunctionBodyLoop f bc fn p.advance
    else (fn, p)

/-- Go parseFunctionBody: consume an opening brace and run the body
loop. -/
def parseFunctionBody (fn : Function) (p : Parser) : Function × Parser :=
  let (ok, p1) := p.matchValue "\x7b"
  if ok then parseFunctionBodyLoop (p.tokens.length + 2) 1 fn p1 else (fn, p)

/-- Loop advancing to the next closing parenthesis (destructor and
constructor parameter skip in Go). -/
def skipToRParen : Nat → Parser → Parser
  | 0, p => p
  | f + 1, p =>
    if !p.isAtEnd && !p.checkValue ")" then skipToRParen f p.advance else p

/-- Loop advancing to the next opening brace or semicolon (initializer
list skip and class-header skip in Go). -/
def skipToBraceOrSemi : Nat → Parser → Parser
  | 0, p => p
  | f + 1, p =>
    if !p.isAtEnd && !p.checkValue "\x7b" && !p.checkValue ";" then
      skipToBraceOrSemi f p.advance
    else p

/-- Go parseDestructor: skip an optional virtual, the tilde, the class
name and the parameter list; a following semicolon yields a bodyless
destructor Function, a brace yields one with a parsed body. -/
def parseDestructor (p : Parser) (className : String) : Option Function × Parser :=
  let startLine := p.current.line
  let p1 := if p.checkKeyword "virtual" then p.advance else p
  let p2 := (p1.matchValue "~").2
  let p3 := p2.advance
  let (ok, p4) := p3.matchValue "("
  if !ok then (none, p4)
  else
    let p5 := skipToRParen (p4.tokens.length + 2) p4
    let p6 := (p5.matchValue ")").2
    let fn : Function := ⟨"~" ++ className, true, startLine, 0, [], [], [], []⟩
    if p6.checkValue ";" then (some fn, p6.advance)
    else if p6.checkValue "\x7b" then
      let (fn2, p7) := parseFunctionBody fn p6
      (some fn2, p7)
    else (some fn, p6)

/-- Go parseConstructor: skip the class name and the parameter list, an
optional initializer list, then a declaration semicolon or a body. -/
def parseConstructor (p : Parser) (className : String) : Option Function × Parser :=
  let startLine := p.current.line
  let p1 := p.advance
  let (ok, p2) := p1.matchValue "("
  if !ok then (none, p2)
  else
    let p3 := skipToRParen (p2.tokens.length + 2) p2
    let p4 := (p3.matchValue ")").2
    let fn : Function := ⟨className, false, startLine, 0, [], [], [], []⟩
    let p5 := if p4.checkValue ":" then skipToBraceOrSemi (p4.tokens.length + 2) p4.advance else p4
    if p5.checkValue ";" then (some fn, p5.advance)
    else if p5.checkValue "\x7b" then
      let (fn2, p6) := parseFunctionBody fn p5
      (some fn2, p6)
    else (some fn, p5)

/-- Loop advancing to the next opening parenthesis, semicolon or brace
(return-type skip of Go parseMethod). -/
def skipToParenOrStmt : Nat → Parser → Parser
  | 0, p => p
  | f + 1, p =>
    if !p.isAtEnd && !p.checkValue "(" && !p.checkValue ";" && !p.checkValue "\x7b" then
      skipToParenOrStmt f p.advance
    else p

/-- Parenthesis-balancing skip of Go parseMethod and
parseOutOfClassMethod. -/
def skipParens : Nat → Nat → Parser → Parser
  | 0, _, p => p
  | f + 1, pc, p =>
    if !p.isAtEnd && pc > 0 then
      let pc2 := if p.checkValue "(" then pc + 1 else if p.checkValue ")" then pc - 1 else pc
      skipParens f pc2 p.advance
    else p

/-- Trailing-qualifier skip of Go parseMethod: advance over const and
identifiers until a brace or semicolon. -/
def skipQualifiers : Nat → Parser → Parser
  | 0, p => p
  | f + 1, p =>
    if p.checkKeyword "const" || p.check TokenType.ident then
      if p.checkValue "\x7b" || p.checkValue ";" then p
      else skipQualifiers f p.advance
    else p

/-- Go parseMethod: skip to the parameter list, name the method after
the token before the parenthesis, skip parameters and qualifiers, then
a declaration semicolon or a body. -/
def parseMethod (p : Parser) : Option Function × Parser :=
  let startLine := p.current.line
  let p1 := skipToParenOrStmt (p.tokens.length + 2) p
  if p1.checkValue ";" then (none, p1.advance)
  else
    let funcName := if p1.pos > 0 then (tokAt p1 (p1.pos - 1)).value else ""
    let (ok, p2) := p1.matchValue "("
    if !ok then (none, p2)
    else
      let p3 := skipParens (p2.tokens.length + 2) 1 p2
      let fn : Function := ⟨funcName, false, startLine, 0, [], [], [], []⟩
      let p4 := skipQualifiers (p3.tokens.length + 2) p3
      if p4.checkValue ";" then (some fn, p4.advance)
      else if p4.checkValue "\x7b" then
        let (fn2, p5) := parseFunctionBody fn p4
        (some fn2, p5)
      else (some fn, p4)

/-- Window scan of Go isMemberDeclaration: within 10 tokens, break at a
semicolon, reject at a parenthesis or brace, and remember whether a star
and an identifier were seen. -/
def memberScan (p : Parser) : Nat → Nat → Bool → Bool → Bool
  | 0, _, hp, hi => hp && hi
  | f + 1, i, hp, hi =>
    if p.pos + i < p.tokens.length then
      let tok := tokAt p (p.pos + i)
      if tok.value == ";" then hp && hi
      else if tok.value == "(" || tok.value == "\x7b" then false
      else memberScan p f (i + 1) (hp || tok.value == "*") (hi || tok.type == TokenType.ident)
    else hp && hi

/-- Go isMemberDeclaration. -/
def isMemberDeclaration (p : Parser) : Bool := memberScan p 10 0 false false

/-- Window scan of Go isFunctionStart: within 15 tokens, an opening
parenthesis before any semicolon or brace. -/
def funcScan (p : Parser) : Nat → Nat → Bool
  | 0, _ => false
  | f + 1, i =>
    if p.pos + i < p.tokens.length then
      let tok := tokAt p (p.pos + i)
      if tok.value == ";" then false
      else if tok.value == "(" then true
      else if tok.value == "\x7b" || tok.value == "\x7d" then false
      else funcScan p f (i + 1)
    else false

/-- Go isFunctionStart. -/
def isFunctionStart (p : Parser) : Bool := funcScan p 15 0

/-- Token-collection loop of Go parseMember: gather tokens until the
semicolon. -/
def collectToSemi : Nat → Parser → List Token → List Token × Parser
  | 0, p, acc => (acc, p)
  | f + 1, p, acc =>
    if !p.isAtEnd && !p.checkValue ";" then collectToSemi f p.advance (acc ++ [p.current])
    else (acc, p)

/-- Go parseMember: analyze a semicolon-terminated declaration; the
variable name is the last identifier that is final or followed by a
bracket or equals sign, remaining identifiers form the type text. -/
def parseMember (p : Parser) : Option Member × Parser :=
  let startLine := p.current.line
  let (tks, p1) := collectToSemi (p.tokens.length + 2) p []
  let p2 := (p1.matchValue ";").2
  if tks.length < 2 then (none, p2)
  else
    let n := tks.length
    let acc := tks.enum.foldl
      (fun (acc : Bool × Bool × String × List String) it =>
        let tok := it.2
        if tok.value == "*" then (true, acc.2.1, acc.2.2.1, acc.2.2.2)
        else if tok.value == "[" then (acc.1, true, acc.2.2.1, acc.2.2.2)
        else if tok.type == TokenType.ident then
          if it.1 = n - 1 || (tks.getD (it.1 + 1) noToken).value == "[" ||
              (tks.getD (it.1 + 1) noToken).value == "=" then
            (acc.1, acc.2.1, tok.value, acc.2.2.2)
          else (acc.1, acc.2.1, acc.2.2.1, acc.2.2.2 ++ [tok.value])
        else acc)
      (false, false, "", [])
    let isPointer := acc.1
    let isArray := acc.2.1
    let varName := acc.2.2.1
    let typeToks := acc.2.2.2
    if !isPointer || varName == "" then (none, p2)
    else (some ⟨varName, String.intercalate " " typeToks, isPointer, isArray, startLine⟩, p2)

/-- Body loop of Go parseClass: balance braces while classifying each
position as an access specifier, destructor, constructor, member
declaration or method. -/
def parseClassLoop : Nat → Nat → String → Class → Parser → Class × Parser
  | 0, _, _, cls, p => (cls, p)
  | f + 1, bc, className, cls, p =>
    if !p.isAtEnd && bc > 0 then
      if p.checkValue "\x7b" then parseClassLoop f (bc + 1) className cls p.advance
      else if p.checkValue "\x7d" then
        if bc = 1 then
          parseClassLoop f 0 className { cls with endLine := p.current.line } p.advance
        else parseClassLoop f (bc - 1) className cls p.advance
      else if p.checkKeyword "public" || p.checkKeyword "private" ||
          p.checkKeyword "protected" then
        parseClassLoop f bc className cls (p.advance.matchValue ":").2
      else if isDestructorStart p className then
        let (fn?, p1) := parseDestructor p className
        match fn? with
        | some fn => parseClassLoop f bc className { cls with dtor := some fn } p1
        | none => parseClassLoop f bc className cls p1
      else if isConstructorStart p className then
        let (fn?, p1) := parseConstructor p className
        match fn? with
        | some fn => parseClassLoop f bc className { cls with ctor := some fn } p1
        | none => parseClassLoop f bc className cls p1
      else if isMemberDeclaration p then
        let (m?, p1) := parseMember p
        match m? with
        | some m => parseClassLoop f bc className { cls with members := cls.members ++ [m] } p1
        | none => parseClassLoop f bc className cls p1
      else if isFunctionStart p then
        let (fn?, p1) := parseMethod p
        match fn? with
        | some fn =>
          parseClassLoop f bc className { cls with methods := cls.methods ++ [fn] } p1
        | none => parseClassLoop f bc className cls p1
      else parseClassLoop f bc className cls p.advance
    else (cls, p)

/-- Go parseClass, entered with the position just past the class or
struct keyword: the class name identifier, the skipped inheritance
clause, then a forward-declaration semicolon (no record) or the
brace-balanced body. -/
def parseClass (p : Parser) : Option Class × Parser :=
  if !(p.check TokenType.ident) then (none, p)
  else
    let className := p.current.value
    let startLine := p.current.line
    let p1 := p.advance
    let p2 := skipToBraceOrSemi (p1.tokens.length + 2) p1
    if p2.checkValue ";" then (none, p2)
    else
      let (ok, p3) := p2.matchValue "\x7b"
      if !ok then (none, p3)
      else
        let cls : Class := ⟨className, p.file, startLine, 0, [], none, none, []⟩
        let (cls2, p4) := parseClassLoop (p.tokens.length + 2) 1 className cls p3
        (some cls2, p4)

/-- Convenience entry: lex a source text and parse one class whose
class/struct keyword is the first token. -/
def parseFirstClass (src : String) (file : String) : Option Class :=
  (parseClass ⟨tokenize src, 1, file⟩).1

/-! Concrete classes exercising the analyzer. -/

/-- Constructor allocation of the alias-chain example. -/
def chainAllocX : Allocation := ⟨"x", false, 4⟩

/-- Destructor of the alias-chain example: it records the aliases
y = x and z = y and deletes only z. -/
def chainAliasDtor : Function :=
  ⟨"~ChainAlias", true, 20, 24, [], [⟨"z", false, 23⟩], [],
   [⟨"x", "y", 21⟩, ⟨"y", "z", 22⟩]⟩

/-- Class whose pointer member x is alias-connected to the deleted name
z only through the two-edge chain x - y - z. -/
def chainAliasClass : Class :=
  ⟨"ChainAlias", "chain.cpp", 1, 30,
   [⟨"x", "int", true, false, 2⟩],
   some ⟨"ChainAlias", false, 3, 5, [chainAllocX], [], [], []⟩,
   some chainAliasDtor, []⟩

/-- Destructor of the four-edge chain example. -/
def chain4Dtor : Function := ⟨"~Chain4", true, 30, 32, [], [], ["m1"], []⟩

/-- Class whose destructor reaches the deleting method m4 through the
chain m1, m2, m3, m4 of four invocation edges. -/
def chain4Class : Class :=
  ⟨"Chain4", "c4.cpp", 1, 40, [⟨"x", "int", true, false, 2⟩],
   some ⟨"Chain4", false, 3, 5, [⟨"x", true, 4⟩], [], [], []⟩,
   some chain4Dtor,
   [⟨"m1", false, 10, 11, [], [], ["m2"], []⟩,
    ⟨"m2", false, 12, 13, [], [], ["m3"], []⟩,
    ⟨"m3", false, 14, 15, [], [], ["m4"], []⟩,
    ⟨"m4", false, 16, 17, [], [⟨"x", true, 16⟩], [], []⟩]⟩

/-- Destructor of the six-level chain example. -/
def chain6Dtor : Function := ⟨"~Chain6", true, 30, 32, [], [], ["m1"], []⟩

/-- Class whose only deallocation of x sits in m5, five invocation edges
from the destructor: a six-level-deep chain counting the destructor. -/
def chain6Class : Class :=
  ⟨"Chain6", "c6.cpp", 1, 40, [⟨"x", "int", true, false, 2⟩],
   some ⟨"Chain6", false, 3, 5, [⟨"x", false, 4⟩], [], [], []⟩,
   some chain6Dtor,
   [⟨"m1", false, 10, 11, [], [], ["m2"], []⟩,
    ⟨"m2", false, 12, 13, [], [], ["m3"], []⟩,
    ⟨"m3", false, 14, 15, [], [], ["m4"], []⟩,
    ⟨"m4", false, 16, 17, [], [], ["m5"], []⟩,
    ⟨"m5", false, 18, 19, [], [⟨"x", false, 18⟩], [], []⟩]⟩

/-- Destructor of the visited-cutoff example: it calls p first and the
short route I second. -/
def cutDtor : Function := ⟨"~Cut", true, 40, 42, [], [], ["p", "I"], []⟩

/-- Method I of the visited-cutoff example: one call away from the
deleting method m. -/
def cutI : Function := ⟨"I", false, 16, 17, [], [], ["m"], []⟩

/-- Method m of the visited-cutoff example: it deletes x. -/
def cutM : Function := ⟨"m", false, 18, 19, [], [⟨"x", false, 18⟩], [], []⟩

/-- Class where the deleting method m sits two invocation edges from the
destructor (via I), but the long route p, p1, p2 first visits I at
remaining depth 1, so the shared visited set cuts off the short route
and m is never collected. -/
def cutClass : Class :=
  ⟨"Cut", "cut.cpp", 1, 60, [⟨"x", "int", true, false, 2⟩],
   some ⟨"Cut", false, 3, 5, [⟨"x", false, 4⟩], [], [], []⟩,
   some cutDtor,
   [⟨"p", false, 10, 11, [], [], ["p1"], []⟩,
    ⟨"p1", false, 12, 13, [], [], ["p2"], []⟩,
    ⟨"p2", false, 14, 15, [], [], ["I"], []⟩,
    cutI, cutM]⟩

/-- Class allocating arr with array form and deleting it with scalar
form. -/
def mismatchClass : Class :=
  ⟨"Mismatch", "mm.cpp", 1, 12, [⟨"arr", "int", true, false, 2⟩],
   some ⟨"Mismatch", false, 3, 5, [⟨"arr", true, 4⟩], [], [], []⟩,
   some ⟨"~Mismatch", true, 7, 9, [], [⟨"arr", false, 8⟩], [], []⟩, []⟩

/-- Method reset of the reassignment example: a fresh allocation of p
with no prior delete. -/
def reassignMethod : Function := ⟨"reset", false, 10, 12, [⟨"p", false, 11⟩], [], [], []⟩

/-- Class whose method reset reassigns the constructor-allocated
pointer member p without deleting it first. -/
def reassignClass : Class :=
  ⟨"Reassign", "ra.cpp", 1, 20, [⟨"p", "int", true, false, 2⟩],
   some ⟨"Reassign", false, 3, 5, [⟨"p", false, 4⟩], [], [], []⟩,
   some ⟨"~Reassign", true, 14, 16, [], [⟨"p", false, 15⟩], [], []⟩,
   [reassignMethod]⟩

/-- Method of the double-free example: it aliases alias2 = orig and
deletes both names. -/
def doubleFreeMethod : Function :=
  ⟨"m", false, 10, 14, [], [⟨"alias2", false, 12⟩, ⟨"orig", false, 13⟩], [],
   [⟨"orig", "alias2", 11⟩]⟩

/-- Class whose method deletes a pointer member and its alias. -/
def doubleFreeClass : Class :=
  ⟨"DoubleFree", "df.cpp", 1, 20, [⟨"orig", "int", true, false, 2⟩],
   some ⟨"DoubleFree", false, 3, 5, [⟨"orig", false, 4⟩], [], [], []⟩,
   some ⟨"~DoubleFree", true, 16, 18, [], [⟨"orig", false, 17⟩], [], []⟩,
   [doubleFreeMethod]⟩

/-- Header-side record of the merge example: a header file that declares
no members. -/
def c7HeaderClass : Class := ⟨"D", "decl.h", 1, 5, [], none, none, []⟩

/-- Member held by the implementation-side record. -/
def c7ImplMember : Member := ⟨"buf", "int", true, false, 3⟩

/-- Implementation-side record of the merge example. -/
def c7ImplClass : Class := ⟨"D", "impl.cpp", 1, 9, [c7ImplMember], none, none, []⟩

/-- Source text of a class whose destructor appears only as the bodyless
declaration ~C(); inside the class body. -/
def c10src : String :=
  "class C \x7b int* x; public: C() \x7b x = new int(5); \x7d ~C(); \x7d;"

/-! Observations used by the claims. -/

/-- Recognizer for the three Rule-1 reason texts. -/
def isRule1Reason (r : String) : Bool :=
  r == missingReason || r == arrayMismatchReason || r == scalarMismatchReason

/-- Leaks of a class analysis that report the missing-deallocation Rule-1
reason for a given variable. -/
def missingLeaksFor (c : Class) (v : String) : List Leak :=
  (analyzeClass c).filter (fun l => l.varName == v && l.reason == missingReason)

/-- Leaks of a class analysis that report any Rule-1 reason for a given
variable. -/
def rule1LeaksFor (c : Class) (v : String) : List Leak :=
  (analyzeClass c).filter (fun l => l.varName == v && isRule1Reason l.reason)

/-! Basic facts about strings and the reason texts. -/

/-- Appending strings appends their character data. -/
theorem strDataAppend (s t : String) : (s ++ t).data = s.data ++ t.data := by
  cases s; cases t; rfl

/-- Strings with different first characters differ. -/
theorem strNeOfHead {s t : String} (h : s.data.head? ≠ t.data.head?) : s ≠ t :=
  fun e => h (congrArg (fun x => x.data.head?) e)

/-- Rule-2 reasons never coincide with the missing-deallocation reason. -/
theorem rule2Reason_ne_missing (s : String) : rule2Reason s ≠ missingReason := by
  apply strNeOfHead
  rw [rule2Reason, strDataAppend, strDataAppend]
  simp [missingReason]

/-- Rule-2 reasons never coincide with the array-mismatch reason. -/
theorem rule2Reason_ne_array (s : String) : rule2Reason s ≠ arrayMismatchReason := by
  apply strNeOfHead
  rw [rule2Reason, strDataAppend, strDataAppend]
  simp [arrayMismatchReason]

/-- Rule-2 reasons never coincide with the scalar-mismatch reason. -/
theorem rule2Reason_ne_scalar (s : String) : rule2Reason s ≠ scalarMismatchReason := by
  apply strNeOfHead
  rw [rule2Reason, strDataAppend, strDataAppend]
  simp [scalarMismatchReason]

/-- Rule-3 reasons never coincide with the missing-deallocation reason. -/
theorem rule3Reason_ne_missing (s : String) : rule3Reason s ≠ missingReason := by
  apply strNeOfHead
  rw [rule3Reason, strDataAppend, strDataAppend]
  simp [missingReason]

/-- Rule-3 reasons never coincide with the array-mismatch reason. -/
theorem rule3Reason_ne_array (s : String) : rule3Reason s ≠ arrayMismatchReason := by
  apply strNeOfHead
  rw [rule3Reason, strDataAppend, strDataAppend]
  simp [arrayMismatchReason]

/-- Rule-3 reasons never coincide with the scalar-mismatch reason. -/
theorem rule3Reason_ne_scalar (s : String) : rule3Reason s ≠ scalarMismatchReason := by
  apply strNeOfHead
  rw [rule3Reason, strDataAppend, strDataAppend]
  simp [scalarMismatchReason]

/-- Rule-2 reasons are not Rule-1 reasons. -/
theorem rule2Reason_not_rule1 (s : String) : isRule1Reason (rule2Reason s) = false := by
  simp [isRule1Reason, rule2Reason_ne_missing, rule2Reason_ne_array, rule2Reason_ne_scalar]

/-- Rule-3 reasons are not Rule-1 reasons. -/
theorem rule3Reason_not_rule1 (s : String) : isRule1Reason (rule3Reason s) = false := by
  simp [isRule1Reason, rule3Reason_ne_missing, rule3Reason_ne_array, rule3Reason_ne_scalar]

/-- The Rule-4 reason is not a Rule-1 reason. -/
theorem rule4Reason_not_rule1 : isRule1Reason rule4Reason = false := by decide

/-! Association-list facts. -/

/-- Lookup fails exactly when the key is absent. -/
theorem lookupKey_eq_none_iff {α : Type} (m : List (String × α)) (k : String) :
    lookupKey m k = none ↔ k ∉ m.map Prod.fst := by
  induction m with
  | nil => simp [lookupKey]
  | cons e rest ih =>
    by_cases h : e.1 = k
    · simp [lookupKey, h]
    · simp [lookupKey, h, ih, Ne.symm h]

/-- Lookup succeeds exactly when the key is present. -/
theorem lookupKey_isSome_iff {α : Type} (m : List (String × α)) (k : String) :
    (lookupKey m k).isSome = true ↔ k ∈ m.map Prod.fst := by
  induction m with
  | nil => simp [lookupKey]
  | cons e rest ih =>
    by_cases h : e.1 = k
    · simp [lookupKey, h]
    · simp [lookupKey, h, ih, Ne.symm h]

/-- Inserting keeps the key list unchanged when the key is already
present and appends it otherwise. -/
theorem insertEntry_keys {α : Type} (m : List (String × α)) (k : String) (v : α) :
    (insertEntry m k v).map Prod.fst =
      if (lookupKey m k).isSome then m.map Prod.fst else m.map Prod.fst ++ [k] := by
  by_cases h : (lookupKey m k).isSome
  · simp only [insertEntry, h, if_true, List.map_map]
    apply List.map_congr_left
    intro p _
    by_cases hp : p.1 = k
    · simp [hp]
    · simp [hp]
  · simp [insertEntry, h]

/-- Inserting preserves distinctness of the key list. -/
theorem insertEntry_keys_nodup {α : Type} (m : List (String × α)) (k : String) (v : α)
    (h : (m.map Prod.fst).Nodup) : ((insertEntry m k v).map Prod.fst).Nodup := by
  rw [insertEntry_keys]
  by_cases hs : (lookupKey m k).isSome
  · simpa [hs] using h
  · have hk : k ∉ m.map Prod.fst := by
      rw [← lookupKey_eq_none_iff, ← Option.not_isSome_iff_eq_none]
      simpa using hs
    simp [hs, List.nodup_append, h, hk]

/-- A fold whose step preserves key distinctness preserves it. -/
theorem foldl_keys_nodup {α β : Type} (step : List (String × α) → β → List (String × α))
    (hstep : ∀ m b, (m.map Prod.fst).Nodup → ((step m b).map Prod.fst).Nodup) :
    ∀ (l : List β) (m : List (String × α)),
      (m.map Prod.fst).Nodup → ((l.foldl step m).map Prod.fst).Nodup := by
  intro l
  induction l with
  | nil => intro m h; simpa using h
  | cons b rest ih => intro m h; exact ih _ (hstep m b h)

/-- The constructor-allocation map has distinct keys. -/
theorem allocatedVars_keys_nodup (c : Class) : ((allocatedVars c).map Prod.fst).Nodup := by
  unfold allocatedVars
  cases c.ctor with
  | none => simp
  | some f =>
    exact foldl_keys_nodup _ (fun m a h => insertEntry_keys_nodup m a.varName a h)
      f.allocations [] (by simp)

/-- The pointer-member map has distinct keys. -/
theorem pointerMembers_keys_nodup (c : Class) : ((pointerMembers c).map Prod.fst).Nodup := by
  unfold pointerMembers
  apply foldl_keys_nodup _ _ c.members [] (by simp)
  intro m mem h
  by_cases hp : mem.isPointer
  · simpa [hp] using insertEntry_keys_nodup m mem.name mem h
  · simpa [hp] using h

/-- Filtering a flatMap over an association list with distinct keys for a
predicate that fails on every other key's output keeps only the
contribution of the matching entry. -/
theorem filter_flatMap_single {α β : Type} (g : String × α → List β) (P : β → Bool)
    (v : String) (a : α) :
    ∀ (m : List (String × α)), (m.map Prod.fst).Nodup → (v, a) ∈ m →
      (∀ e ∈ m, e.1 ≠ v → ∀ b ∈ g e, P b = false) →
      (m.flatMap g).filter P = (g (v, a)).filter P := by
  intro m
  induction m with
  | nil => intro _ hm; cases hm
  | cons e rest ih =>
    intro hnd hmem hkey
    have hnd1 : ((rest.map Prod.fst)).Nodup := (List.nodup_cons.mp hnd).2
    have hnotin : e.1 ∉ rest.map Prod.fst := (List.nodup_cons.mp hnd).1
    rcases List.mem_cons.mp hmem with heq | htail
    · subst heq
      rw [List.flatMap_cons, List.filter_append]
      have hvnotin : v ∉ rest.map Prod.fst := hnotin
      have hrest : (rest.flatMap g).filter P = [] := by
        apply List.filter_eq_nil_iff.mpr
        intro b hb
        rcases List.mem_flatMap.mp hb with ⟨e2, he2, hbe2⟩
        have hmm : e2.1 ∈ rest.map Prod.fst := List.mem_map_of_mem Prod.fst he2
        have hne : e2.1 ≠ v := fun h => hvnotin (h ▸ hmm)
        simp [hkey e2 (List.mem_cons_of_mem _ he2) hne b hbe2]
      simp [hrest]
    · have hv : v ∈ rest.map Prod.fst := by
        have := List.mem_map_of_mem Prod.fst htail
        simpa using this
      have hne : e.1 ≠ v := fun h => hnotin (h ▸ hv)
      rw [List.flatMap_cons, List.filter_append]
      have hhead : (g e).filter P = [] := by
        apply List.filter_eq_nil_iff.mpr
        intro b hb
        simp [hkey e (List.mem_cons_self e rest) hne b hb]
      rw [hhead]
      simpa using ih hnd1 htail (fun e2 he2 => hkey e2 (List.mem_cons_of_mem _ he2))

/-! Facts about the alias-aware release check. -/

/-- Option fact: a failed isSome means the option is none. -/
theorem isSome_false_eq_none {α : Type} {o : Option α} (h : o.isSome = false) : o = none := by
  cases o with
  | none => rfl
  | some a => cases h

/-- The release check fails exactly when neither the variable nor any
name in its alias list is a key of the deallocation map. -/
theorem isVarDeallocated_eq_false_iff (v : String) (dv : List (String × Deallocation))
    (am : String → List String) :
    isVarDeallocated v dv am = false ↔ ∀ n ∈ v :: am v, lookupKey dv n = none := by
  unfold isVarDeallocated
  rw [Bool.or_eq_false_iff]
  constructor
  · rintro ⟨h1, h2⟩ n hn
    rw [List.any_eq_false] at h2
    rcases List.mem_cons.mp hn with rfl | hn2
    · exact isSome_false_eq_none h1
    · have := h2 n hn2
      exact isSome_false_eq_none (by simpa using this)
  · intro h
    constructor
    · have := h v (List.mem_cons_self v _)
      simp [this]
    · rw [List.any_eq_false]
      intro n hn
      have := h n (List.mem_cons_of_mem _ hn)
      simp [this]

/-- When the release check fails, the alias-aware lookup finds nothing. -/
theorem findDeallocation_eq_none_of_false (v : String) (dv : List (String × Deallocation))
    (am : String → List String) (h : isVarDeallocated v dv am = false) :
    findDeallocation v dv am = none := by
  rw [isVarDeallocated_eq_false_iff] at h
  unfold findDeallocation
  rw [h v (List.mem_cons_self v _)]
  exact List.findSome?_eq_none_iff.mpr (fun n hn => h n (List.mem_cons_of_mem _ hn))

/-- When the alias-aware lookup finds an entry, the release check holds. -/
theorem isVarDeallocated_of_findDeallocation (v : String) (dv : List (String × Deallocation))
    (am : String → List String) (d : Deallocation) (h : findDeallocation v dv am = some d) :
    isVarDeallocated v dv am = true := by
  by_contra hb
  rw [Bool.not_eq_true] at hb
  rw [findDeallocation_eq_none_of_false v dv am hb] at h
  cases h

/-- The release check holds when the variable or an alias of it is a key
of the deallocation map. -/
theorem isVarDeallocated_of_mem (v n : String) (dv : List (String × Deallocation))
    (am : String → List String) (hn : n ∈ v :: am v)
    (hd : (lookupKey dv n).isSome = true) : isVarDeallocated v dv am = true := by
  by_contra hb
  rw [Bool.not_eq_true, isVarDeallocated_eq_false_iff] at hb
  rw [hb n hn] at hd
  cases hd

/-! Shape of the leaks each rule emits. -/

/-- The leaks an entry contributes to Rule 1 in the three live branches. -/
theorem rule1For_cases (c : Class) (dv : List (String × Deallocation))
    (am : String → List String) (e : String × Allocation) :
    ∀ l ∈ rule1For c dv am e,
      (isVarDeallocated e.1 dv am = false ∧
        l = ⟨c.file, e.2.line, c.name, e.1, missingReason, "error"⟩) ∨
      (∃ d, findDeallocation e.1 dv am = some d ∧
        (l = ⟨c.file, d.line, c.name, e.1, arrayMismatchReason, "error"⟩ ∨
         l = ⟨c.file, d.line, c.name, e.1, scalarMismatchReason, "warning"⟩)) := by
  intro l hl
  unfold rule1For at hl
  split_ifs at hl with h1
  · exact Or.inl ⟨by simpa using h1, List.mem_singleton.mp hl⟩
  · rcases hfd : findDeallocation e.1 dv am with _ | d <;> simp only [hfd] at hl
    · cases hl
    · split_ifs at hl with h2 h3
      · exact Or.inr ⟨d, rfl, Or.inl (List.mem_singleton.mp hl)⟩
      · exact Or.inr ⟨d, rfl, Or.inr (List.mem_singleton.mp hl)⟩
      · cases hl

/-- Every Rule-1 leak of an entry carries that entry's variable name. -/
theorem rule1For_varName (c : Class) (dv : List (String × Deallocation))
    (am : String → List String) (e : String × Allocation) :
    ∀ l ∈ rule1For c dv am e, l.varName = e.1 := by
  intro l hl
  rcases rule1For_cases c dv am e l hl with ⟨_, h⟩ | ⟨d, _, h | h⟩ <;> subst h <;> rfl

/-- Every Rule-1 leak of an entry carries a Rule-1 reason. -/
theorem rule1For_reason (c : Class) (dv : List (String × Deallocation))
    (am : String → List String) (e : String × Allocation) :
    ∀ l ∈ rule1For c dv am e, isRule1Reason l.reason = true := by
  intro l hl
  rcases rule1For_cases c dv am e l hl with ⟨_, h⟩ | ⟨d, _, h | h⟩ <;> subst h <;>
    simp [isRule1Reason]

/-- Every leak Rule 2 emits for one allocation is the Rule-2 warning. -/
theorem rule2For_mem (c : Class) (avars : List (String × Allocation))
    (pm : List (String × Member)) (m : Function) (a : Allocation) (l : Leak)
    (hl : l ∈ rule2For c avars pm m a) :
    l = ⟨c.file, a.line, c.name, a.varName, rule2Reason m.name, "warning"⟩ := by
  unfold rule2For at hl
  split_ifs at hl
  · exact List.mem_singleton.mp hl
  all_goals cases hl

/-- Every Rule-2 leak carries a Rule-2 reason. -/
theorem rule2Leaks_reason (c : Class) :
    ∀ l ∈ rule2Leaks c, ∃ s, l.reason = rule2Reason s := by
  intro l hl
  unfold rule2Leaks at hl
  rcases List.mem_flatMap.mp hl with ⟨m, _, hl2⟩
  rcases List.mem_flatMap.mp hl2 with ⟨a, _, hl3⟩
  exact ⟨m.name, by rw [rule2For_mem c _ _ m a l hl3]⟩

/-- Every leak Rule 3 emits for one alias is the Rule-3 error. -/
theorem rule3For_mem (c : Class) (pm : List (String × Member)) (m : Function)
    (al : PointerAlias) (l : Leak) (hl : l ∈ rule3For c pm m al) :
    l = ⟨c.file, al.line, c.name, al.sourceVar, rule3Reason al.targetVar, "error"⟩ := by
  unfold rule3For at hl
  split_ifs at hl
  · exact List.mem_singleton.mp hl
  all_goals cases hl

/-- Every Rule-3 leak carries a Rule-3 reason. -/
theorem rule3Leaks_reason (c : Class) :
    ∀ l ∈ rule3Leaks c, ∃ s, l.reason = rule3Reason s := by
  intro l hl
  unfold rule3Leaks at hl
  rcases List.mem_flatMap.mp hl with ⟨m, _, hl2⟩
  rcases List.mem_flatMap.mp hl2 with ⟨al, _, hl3⟩
  exact ⟨al.targetVar, by rw [rule3For_mem c _ m al l hl3]⟩

/-- Every Rule-4 leak carries the Rule-4 reason. -/
theorem rule4Leaks_reason (c : Class) :
    ∀ l ∈ rule4Leaks c, l.reason = rule4Reason := by
  intro l hl
  unfold rule4Leaks at hl
  rcases hd : c.dtor with _ | f <;> rw [hd] at hl
  · rcases List.mem_flatMap.mp hl with ⟨p, _, hl2⟩
    split_ifs at hl2
    · simp at hl2; subst hl2; rfl
    · cases hl2
  · cases hl

/-! Core facts about Rule-1 emission inside a full class analysis. -/

/-- The three Rule-1 reason texts are pairwise distinct and distinct
from the Rule-4 reason. -/
theorem reasons_distinct :
    missingReason ≠ arrayMismatchReason ∧ missingReason ≠ scalarMismatchReason ∧
    arrayMismatchReason ≠ scalarMismatchReason ∧ rule4Reason ≠ missingReason := by
  refine ⟨?_, ?_, ?_, ?_⟩ <;> decide

/-- Filtering the whole analysis on a Rule-1 reason text is filtering
its Rule-1 segment: Rules 2, 3 and 4 never emit those texts. -/
theorem filter_analyze_rule1 (c : Class) (P : Leak → Bool)
    (hpm : (pointerMembers c).isEmpty = false)
    (hP : ∀ l, P l = true → isRule1Reason l.reason = true) :
    (analyzeClass c).filter P = (rule1Leaks c).filter P := by
  unfold analyzeClass
  rw [if_neg (by simp [hpm])]
  rw [List.filter_append, List.filter_append, List.filter_append]
  have hno : ∀ l, (∃ s, l.reason = rule2Reason s) ∨ (∃ s, l.reason = rule3Reason s) ∨
      l.reason = rule4Reason → P l = false := by
    intro l h
    by_contra hb
    have hr1 := hP l (by revert hb; cases P l <;> simp)
    rcases h with ⟨s, hs⟩ | ⟨s, hs⟩ | hs
    · rw [hs, rule2Reason_not_rule1 s] at hr1; cases hr1
    · rw [hs, rule3Reason_not_rule1 s] at hr1; cases hr1
    · rw [hs] at hr1; rw [rule4Reason_not_rule1] at hr1; cases hr1
  have h2 : (rule2Leaks c).filter P = [] :=
    List.filter_eq_nil_iff.mpr (fun l hl => by
      simp [hno l (Or.inl (rule2Leaks_reason c l hl))])
  have h3 : (rule3Leaks c).filter P = [] :=
    List.filter_eq_nil_iff.mpr (fun l hl => by
      simp [hno l (Or.inr (Or.inl (rule3Leaks_reason c l hl)))])
  have h4 : (rule4Leaks c).filter P = [] :=
    List.filter_eq_nil_iff.mpr (fun l hl => by
      simp [hno l (Or.inr (Or.inr (rule4Leaks_reason c l hl)))])
  simp [h2, h3, h4]

/-- An unreleased constructor-allocated variable yields exactly the one
missing-deallocation error leak carrying the allocation's line. -/
theorem rule1_missing_emits (c : Class) (v : String) (alloc : Allocation)
    (hmem : (v, alloc) ∈ allocatedVars c) (hpm : (pointerMembers c).isEmpty = false)
    (hrel : isVarDeallocated v (deallocatedVars c) (aliasMapOf c) = false) :
    missingLeaksFor c v = [⟨c.file, alloc.line, c.name, v, missingReason, "error"⟩] := by
  unfold missingLeaksFor
  rw [filter_analyze_rule1 c _ hpm (by
    intro l hl
    have : l.reason = missingReason := by
      have := (Bool.and_eq_true _ _).mp hl
      exact eq_of_beq this.2
    simp [this, isRule1Reason])]
  unfold rule1Leaks
  rw [filter_flatMap_single (rule1For c (deallocatedVars c) (aliasMapOf c)) _ v alloc
    (allocatedVars c) (allocatedVars_keys_nodup c) hmem ?keyside]
  case keyside =>
    intro e _ hne b hb
    have hv := rule1For_varName c _ _ e b hb
    simp [hv, hne]
  unfold rule1For
  rw [if_pos (by simp [hrel])]
  simp

/-- A released variable never yields a missing-deallocation leak. -/
theorem rule1_discharged (c : Class) (v : String)
    (hrel : isVarDeallocated v (deallocatedVars c) (aliasMapOf c) = true) :
    missingLeaksFor c v = [] := by
  by_cases hpm : (pointerMembers c).isEmpty = true
  · unfold missingLeaksFor analyzeClass
    rw [if_pos hpm]
    rfl
  · rw [missingLeaksFor,
      filter_analyze_rule1 c _ (by simpa using hpm) (by
        intro l hl
        have : l.reason = missingReason := by
          have := (Bool.and_eq_true _ _).mp hl
          exact eq_of_beq this.2
        simp [this, isRule1Reason])]
    apply List.filter_eq_nil_iff.mpr
    intro l hl
    rcases List.mem_flatMap.mp hl with ⟨e, he, hle⟩
    rcases rule1For_cases c _ _ e l hle with ⟨hfalse, h⟩ | ⟨d, hd, h | h⟩ <;> subst h
    · by_cases hev : e.1 = v
      · rw [hev] at hfalse; rw [hfalse] at hrel; cases hrel
      · simp [hev]
    · simp [Ne.symm reasons_distinct.1]
    · simp [Ne.symm reasons_distinct.2.1]

/-- A released variable with a found deallocation yields exactly the
mismatch leak the arity comparison dictates, or none at all. -/
theorem rule1_mismatch_emits (c : Class) (v : String) (alloc : Allocation) (d : Deallocation)
    (hmem : (v, alloc) ∈ allocatedVars c) (hpm : (pointerMembers c).isEmpty = false)
    (hfd : findDeallocation v (deallocatedVars c) (aliasMapOf c) = some d) :
    (alloc.isArray = true → d.isArray = false →
      rule1LeaksFor c v = [⟨c.file, d.line, c.name, v, arrayMismatchReason, "error"⟩]) ∧
    (alloc.isArray = false → d.isArray = true →
      rule1LeaksFor c v = [⟨c.file, d.line, c.name, v, scalarMismatchReason, "warning"⟩]) ∧
    (alloc.isArray = d.isArray → rule1LeaksFor c v = []) := by
  have hrel : isVarDeallocated v (deallocatedVars c) (aliasMapOf c) = true :=
    isVarDeallocated_of_findDeallocation v _ _ d hfd
  have hbase : rule1LeaksFor c v =
      (rule1For c (deallocatedVars c) (aliasMapOf c) (v, alloc)).filter
        (fun l => l.varName == v && isRule1Reason l.reason) := by
    unfold rule1LeaksFor
    rw [filter_analyze_rule1 c _ hpm (by
      intro l hl
      exact ((Bool.and_eq_true _ _).mp hl).2)]
    unfold rule1Leaks
    rw [filter_flatMap_single (rule1For c (deallocatedVars c) (aliasMapOf c)) _ v alloc
      (allocatedVars c) (allocatedVars_keys_nodup c) hmem ?keyside2]
    case keyside2 =>
      intro e _ hne b hb
      have hv := rule1For_varName c _ _ e b hb
      simp [hv, hne]
  refine ⟨?_, ?_, ?_⟩
  · intro ha hd2
    rw [hbase]
    unfold rule1For
    rw [if_neg (by simp [hrel])]
    simp only [hfd, ha, hd2]
    simp [isRule1Reason]
  · intro ha hd2
    rw [hbase]
    unfold rule1For
    rw [if_neg (by simp [hrel])]
    simp only [hfd, ha, hd2]
    simp [isRule1Reason]
  · intro ha
    rw [hbase]
    unfold rule1For
    rw [if_neg (by simp [hrel])]
    simp only [hfd]
    cases hda : d.isArray <;> rw [hda] at ha <;> simp [ha, hda]

/-! Facts about the multi-level deallocation traversal. -/

/-- A function whose name is already visited contributes nothing. -/
theorem collect_visited_noop (methods : List Function) (d : Nat) (fn : Function)
    (st : CState) (h : fn.name ∈ st.visited) :
    collectDeallocations methods d fn st = st := by
  cases d with
  | zero => rw [collectDeallocations_zero]
  | succ d => rw [collectDeallocations_succ, if_pos h]

/-- Sibling-iteration form of visited-set growth, given it for the node
step at the child depth. -/
theorem collectFromCalls_mono_aux (methods : List Function) (d : Nat)
    (hfn : ∀ fn st, st.visited ⊆ (collectDeallocations methods d fn st).visited) :
    ∀ ns st, st.visited ⊆ (collectFromCalls methods d ns st).visited := by
  intro ns
  induction ns with
  | nil => intro st; rw [collectFromCalls_nil]; exact fun x hx => hx
  | cons n rest ih =>
    intro st
    rw [collectFromCalls_cons]
    cases hm : methodLookup methods n with
    | some m => simp only [hm]; exact fun x hx => ih _ (hfn m st hx)
    | none => simp only [hm]; exact ih st

/-- The visited set only grows. -/
theorem collect_visited_mono (methods : List Function) :
    ∀ (d : Nat) (fn : Function) (st : CState),
      st.visited ⊆ (collectDeallocations methods d fn st).visited := by
  intro d
  induction d with
  | zero => intro fn st; rw [collectDeallocations_zero]; exact fun x hx => hx
  | succ d ih =>
    intro fn st
    rw [collectDeallocations_succ]
    by_cases h : fn.name ∈ st.visited
    · rw [if_pos h]; exact fun x hx => hx
    · rw [if_neg h]
      intro x hx
      exact collectFromCalls_mono_aux methods d (ih) fn.methodCalls _
        (List.mem_cons_of_mem _ hx)

/-- The visited set only grows across a sibling iteration. -/
theorem collectFromCalls_mono (methods : List Function) (d : Nat) (ns : List String)
    (st : CState) : st.visited ⊆ (collectFromCalls methods d ns st).visited :=
  collectFromCalls_mono_aux methods d (collect_visited_mono methods d) ns st

/-- After a positive-depth visit the function's name is visited. -/
theorem collect_marks_visited (methods : List Function) (d : Nat) (fn : Function)
    (st : CState) :
    fn.name ∈ (collectDeallocations methods (d + 1) fn st).visited := by
  rw [collectDeallocations_succ]
  by_cases h : fn.name ∈ st.visited
  · rw [if_pos h]; exact h
  · rw [if_neg h]
    exact collectFromCalls_mono methods d fn.methodCalls _ (List.mem_cons_self _ _)

/-- Visiting a node twice in a row is the same as visiting it once. -/
theorem collect_idempotent (methods : List Function) (d : Nat) (fn : Function) (st : CState) :
    collectDeallocations methods d fn (collectDeallocations methods d fn st) =
      collectDeallocations methods d fn st := by
  cases d with
  | zero => rw [collectDeallocations_zero]
  | succ d =>
    by_cases h : fn.name ∈ st.visited
    · rw [collect_visited_noop methods _ fn st h, collect_visited_noop methods _ fn st h]
    · exact collect_visited_noop methods _ fn _ (collect_marks_visited methods d fn st)

/-- A method name listed twice in a row in a call list contributes only
once: the visited set is shared across siblings. -/
theorem collectFromCalls_dup (methods : List Function) (d : Nat) (n : String)
    (rest : List String) (st : CState) :
    collectFromCalls methods d (n :: n :: rest) st =
      collectFromCalls methods d (n :: rest) st := by
  rw [collectFromCalls_cons methods d n (n :: rest) st]
  rw [collectFromCalls_cons methods d n rest st]
  rw [collectFromCalls_cons methods d n rest]
  cases hm : methodLookup methods n with
  | some m => simp only [hm, collect_idempotent]
  | none => simp only [hm]

/-- Functions the traversal can reach from a starting function within
the given depth budget: the function itself plus, at one budget less,
whatever its resolved method calls reach.  This mirrors the recursion
structure of collectDeallocations with the visited pruning removed, so
it over-approximates the set of functions whose deallocations can enter
the result map. -/
def reachList (methods : List Function) : Nat → Function → List Function
  | 0, _ => []
  | Nat.succ d, fn =>
    fn :: fn.methodCalls.flatMap (fun n =>
      match methodLookup methods n with
      | some m => reachList methods d m
      | none => [])

/-- Reachable functions through a list of call names. -/
def reachCalls (methods : List Function) (d : Nat) (ns : List String) : List Function :=
  ns.flatMap (fun n =>
    match methodLookup methods n with
    | some m => reachList methods d m
    | none => [])

/-- Unfolding: positive reach budget. -/
theorem reachList_succ (methods : List Function) (d : Nat) (fn : Function) :
    reachList methods (d + 1) fn = fn :: reachCalls methods d fn.methodCalls := rfl

/-- Unfolding: nonempty call list. -/
theorem reachCalls_cons (methods : List Function) (d : Nat) (n : String) (ns : List String) :
    reachCalls methods d (n :: ns) =
      (match methodLookup methods n with
       | some m => reachList methods d m
       | none => []) ++ reachCalls methods d ns := rfl

/-- Pushing a function's direct deallocations onto the result map only
adds keys that are deallocated variable names of that function. -/
theorem lookup_push_deallocs (ds : List Deallocation) :
    ∀ (r : List (String × Deallocation)) (k : String),
      (lookupKey (ds.foldl (fun r dl => (dl.varName, dl) :: r) r) k).isSome = true →
      (lookupKey r k).isSome = true ∨ ∃ dl ∈ ds, dl.varName = k := by
  induction ds with
  | nil => intro r k h; exact Or.inl h
  | cons dl ds ih =>
    intro r k h
    rcases ih _ k h with h2 | ⟨dl2, hdl2, hk⟩
    · by_cases hv : dl.varName = k
      · exact Or.inr ⟨dl, List.mem_cons_self _ _, hv⟩
      · unfold lookupKey at h2
        rw [if_neg hv] at h2
        exact Or.inl h2
    · exact Or.inr ⟨dl2, List.mem_cons_of_mem _ hdl2, hk⟩

/-- Sibling-iteration form of the key bound, given it for the node step
at the child depth. -/
theorem collectFromCalls_bound_aux (methods : List Function) (d : Nat)
    (hfn : ∀ fn st k,
      (lookupKey (collectDeallocations methods d fn st).result k).isSome = true →
      (lookupKey st.result k).isSome = true ∨
      ∃ g ∈ reachList methods d fn, ∃ dl ∈ g.deallocations, dl.varName = k) :
    ∀ ns st k, (lookupKey (collectFromCalls methods d ns st).result k).isSome = true →
      (lookupKey st.result k).isSome = true ∨
      ∃ g ∈ reachCalls methods d ns, ∃ dl ∈ g.deallocations, dl.varName = k := by
  intro ns
  induction ns with
  | nil => intro st k h; rw [collectFromCalls_nil] at h; exact Or.inl h
  | cons n rest ih =>
    intro st k h
    rw [collectFromCalls_cons] at h
    cases hm : methodLookup methods n with
    | some m =>
      simp only [hm] at h
      rcases ih _ k h with h2 | ⟨g, hg, hdl⟩
      · rcases hfn m st k h2 with h3 | ⟨g, hg, hdl⟩
        · exact Or.inl h3
        · exact Or.inr ⟨g, by rw [reachCalls_cons]; simp [hm, hg], hdl⟩
      · exact Or.inr ⟨g, by rw [reachCalls_cons]; simp [hm, hg], hdl⟩
    | none =>
      simp only [hm] at h
      rcases ih _ k h with h2 | ⟨g, hg, hdl⟩
      · exact Or.inl h2
      · exact Or.inr ⟨g, by rw [reachCalls_cons]; simp [hm, hg], hdl⟩

/-- Every key of the collected deallocation map was already present or
is deallocated by some function the traversal can reach within the
depth budget. -/
theorem collect_result_bound (methods : List Function) :
    ∀ (d : Nat) (fn : Function) (st : CState) (k : String),
      (lookupKey (collectDeallocations methods d fn st).result k).isSome = true →
      (lookupKey st.result k).isSome = true ∨
      ∃ g ∈ reachList methods d fn, ∃ dl ∈ g.deallocations, dl.varName = k := by
  intro d
  induction d with
  | zero => intro fn st k h; rw [collectDeallocations_zero] at h; exact Or.inl h
  | succ d ih =>
    intro fn st k h
    rw [collectDeallocations_succ] at h
    by_cases hv : fn.name ∈ st.visited
    · rw [if_pos hv] at h; exact Or.inl h
    · rw [if_neg hv] at h
      rcases collectFromCalls_bound_aux methods d ih fn.methodCalls _ k h with
        h2 | ⟨g, hg, hdl⟩
      · rcases lookup_push_deallocs fn.deallocations st.result k h2 with
          h3 | ⟨dl, hdl, hk⟩
        · exact Or.inl h3
        · exact Or.inr ⟨fn, by rw [reachList_succ]; exact List.mem_cons_self _ _,
            dl, hdl, hk⟩
      · exact Or.inr ⟨g, by rw [reachList_succ]; exact List.mem_cons_of_mem _ hg, hdl⟩

/-- Keys of a class's destructor-reachable deallocation map come from
deallocations of functions within the depth-bounded reach of the
destructor. -/
theorem deallocatedVars_bound (c : Class) (f : Function) (hd : c.dtor = some f)
    (k : String) (h : (lookupKey (deallocatedVars c) k).isSome = true) :
    ∃ g ∈ reachList c.methods MaxMethodDepth f, ∃ dl ∈ g.deallocations, dl.varName = k := by
  unfold deallocatedVars at h
  rw [hd] at h
  rcases collect_result_bound c.methods MaxMethodDepth f ⟨[], []⟩ k h with h2 | hr
  · simp [lookupKey] at h2
  · exact hr

/-- A class-level helper: membership of a Rule-2 leak in the full
analysis when the class has a pointer member. -/
theorem rule2For_mem_analyze (c : Class) (m : Function) (a : Allocation)
    (hm : m ∈ c.methods) (ha : a ∈ m.allocations) :
    ∀ l ∈ rule2For c (allocatedVars c) (pointerMembers c) m a, l ∈ analyzeClass c := by
  intro l hl
  have hsome : (lookupKey (pointerMembers c) a.varName).isSome = true := by
    unfold rule2For at hl
    split_ifs at hl with h1 h2 h3
    · exact h1
    all_goals cases hl
  have hpm : (pointerMembers c).isEmpty = false := by
    cases hmm : pointerMembers c with
    | nil => rw [hmm] at hsome; cases hsome
    | cons e rest => simp
  unfold analyzeClass
  rw [if_neg (by simp [hpm])]
  have hmem2 : l ∈ rule2Leaks c :=
    List.mem_flatMap.mpr ⟨m, hm, List.mem_flatMap.mpr ⟨a, ha, hl⟩⟩
  simp [hmem2]

/-- A class-level helper: membership of a Rule-3 leak in the full
analysis when the class has a pointer member. -/
theorem rule3For_mem_analyze (c : Class) (m : Function) (al : PointerAlias)
    (hm : m ∈ c.methods) (hal : al ∈ m.aliases) :
    ∀ l ∈ rule3For c (pointerMembers c) m al, l ∈ analyzeClass c := by
  intro l hl
  have hsome : (lookupKey (pointerMembers c) al.sourceVar).isSome = true := by
    unfold rule3For at hl
    split_ifs at hl with h1 h2
    · exact h1
    all_goals cases hl
  have hpm : (pointerMembers c).isEmpty = false := by
    cases hmm : pointerMembers c with
    | nil => rw [hmm] at hsome; cases hsome
    | cons e rest => simp
  unfold analyzeClass
  rw [if_neg (by simp [hpm])]
  have hmem3 : l ∈ rule3Leaks c :=
    List.mem_flatMap.mpr ⟨m, hm, List.mem_flatMap.mpr ⟨al, hal, hl⟩⟩
  simp [hmem3]

/-- The no-earlier-delete test of Rule 2 in quantifier form. -/
theorem noDelBefore_iff (m : Function) (a : Allocation) :
    ((m.deallocations.any fun dl => dl.varName = a.varName && dl.line < a.line) = false) ↔
    ∀ dl ∈ m.deallocations, dl.varName = a.varName → ¬ dl.line < a.line := by
  rw [List.any_eq_false]
  constructor
  · intro h dl hdl hv
    have := h dl hdl
    simpa [hv] using this
  · intro h dl hdl
    by_cases hv : dl.varName = a.varName
    · simp [hv, h dl hdl hv]
    · simp [hv]

/-- Sibling-iteration form of visited-list distinctness, given it for
the node step at the child depth. -/
theorem collectFromCalls_nodup_aux (methods : List Function) (d : Nat)
    (hfn : ∀ fn st, st.visited.Nodup → (collectDeallocations methods d fn st).visited.Nodup) :
    ∀ ns st, st.visited.Nodup → (collectFromCalls methods d ns st).visited.Nodup := by
  intro ns
  induction ns with
  | nil => intro st h; rwa [collectFromCalls_nil]
  | cons n rest ih =>
    intro st h
    rw [collectFromCalls_cons]
    cases hm : methodLookup methods n with
    | some m => simp only [hm]; exact ih _ (hfn m st h)
    | none => simp only [hm]; exact ih st h

/-- The visited list stays duplicate-free: each function is recorded at
most once per traversal. -/
theorem collect_visited_nodup (methods : List Function) :
    ∀ (d : Nat) (fn : Function) (st : CState),
      st.visited.Nodup → (collectDeallocations methods d fn st).visited.Nodup := by
  intro d
  induction d with
  | zero => intro fn st h; rwa [collectDeallocations_zero]
  | succ d ih =>
    intro fn st h
    rw [collectDeallocations_succ]
    by_cases hv : fn.name ∈ st.visited
    · rwa [if_pos hv]
    · rw [if_neg hv]
      exact collectFromCalls_nodup_aux methods d ih fn.methodCalls _
        (List.nodup_cons.mpr ⟨hv, h⟩)

/-! Claim theorems. -/

/-- C1, counterexample: in chainAliasClass the deleted name z is
reachable from the allocated member x through the two alias edges
x - y and y - z, yet Rule 1 still emits the missing-deallocation leak
for x: the lookup follows only one alias hop, not chains. -/
theorem c1_counterexample :
    ("y" ∈ aliasMapOf chainAliasClass "x") ∧
    ("z" ∈ aliasMapOf chainAliasClass "y") ∧
    ("z" ∉ aliasMapOf chainAliasClass "x") ∧
    (lookupKey (deallocatedVars chainAliasClass) "z").isSome = true ∧
    (("x", chainAllocX) ∈ allocatedVars chainAliasClass) ∧
    missingLeaksFor chainAliasClass "x" =
      [⟨"chain.cpp", 4, "ChainAlias", "x", missingReason, "error"⟩] := by
  decide

/-- C1, amended: the release obligation on a member v is discharged
whenever v itself or a name one alias edge away from v (a name in
aliasMap of v) is a key of the collected deallocation map; names
reachable only through chains of two or more alias edges do not
discharge it. -/
theorem c1_alias_discharge (c : Class) (v n : String) (hn : n ∈ v :: aliasMapOf c v)
    (hdel : (lookupKey (deallocatedVars c) n).isSome = true) :
    missingLeaksFor c v = [] :=
  rule1_discharged c v (isVarDeallocated_of_mem v n _ _ hn hdel)

/-- C1, witness: deleting z discharges the obligation on its direct
alias neighbour y in chainAliasClass. -/
theorem c1_alias_discharge_witness : missingLeaksFor chainAliasClass "y" = [] :=
  c1_alias_discharge chainAliasClass "y" "z" (by decide) (by decide)

/-- C2: an entry (v, alloc) of the constructor allocation map of a class
with a pointer member, where neither v nor any alias-related name is a
key of the destructor's collected deallocation map, produces exactly one
leak with the missing-deallocation reason for v, severity error and the
allocation's line. -/
theorem c2_missing_deallocation (c : Class) (v : String) (alloc : Allocation)
    (hmem : (v, alloc) ∈ allocatedVars c)
    (hpm : (pointerMembers c).isEmpty = false)
    (hrel : ∀ n ∈ v :: aliasMapOf c v, lookupKey (deallocatedVars c) n = none) :
    missingLeaksFor c v = [⟨c.file, alloc.line, c.name, v, missingReason, "error"⟩] :=
  rule1_missing_emits c v alloc hmem hpm ((isVarDeallocated_eq_false_iff v _ _).mpr hrel)

/-- C2, witness: the unreleased member x of chainAliasClass yields
exactly its missing-deallocation error leak at the allocation line. -/
theorem c2_missing_deallocation_witness :
    missingLeaksFor chainAliasClass "x" =
      [⟨"chain.cpp", 4, "ChainAlias", "x", missingReason, "error"⟩] :=
  c2_missing_deallocation chainAliasClass "x" chainAllocX (by decide) (by decide) (by decide)

/-- C3: for a released constructor-allocated member v whose alias-aware
deallocation lookup finds d, an array allocation deleted with scalar
form yields exactly the error mismatch leak at d's line, a scalar
allocation deleted with array form yields exactly the warning mismatch
leak at d's line, and matching arity yields no Rule-1 leak for v. -/
theorem c3_arity_mismatch (c : Class) (v : String) (alloc : Allocation) (d : Deallocation)
    (hmem : (v, alloc) ∈ allocatedVars c)
    (hpm : (pointerMembers c).isEmpty = false)
    (hfd : findDeallocation v (deallocatedVars c) (aliasMapOf c) = some d) :
    (alloc.isArray = true → d.isArray = false →
      rule1LeaksFor c v = [⟨c.file, d.line, c.name, v, arrayMismatchReason, "error"⟩]) ∧
    (alloc.isArray = false → d.isArray = true →
      rule1LeaksFor c v = [⟨c.file, d.line, c.name, v, scalarMismatchReason, "warning"⟩]) ∧
    (alloc.isArray = d.isArray → rule1LeaksFor c v = []) :=
  rule1_mismatch_emits c v alloc d hmem hpm hfd

/-- C3, witness: mismatchClass allocates arr with new[] and deletes it
with delete, producing exactly the array-mismatch error at the delete
line. -/
theorem c3_arity_mismatch_witness :
    rule1LeaksFor mismatchClass "arr" =
      [⟨"mm.cpp", 8, "Mismatch", "arr", arrayMismatchReason, "error"⟩] :=
  (c3_arity_mismatch mismatchClass "arr" ⟨"arr", true, 4⟩ ⟨"arr", false, 8⟩
    (by decide) (by decide) (by decide)).1 rfl rfl

/-- C4, counterexample: in cutClass the destructor reaches the deleting
method m through only two invocation edges (destructor to I, I to m),
yet the shared visited set first reaches I at remaining depth 1 through
the longer route p, p1, p2, so m is never collected and the Rule-1
missing-deallocation leak is emitted for x. -/
theorem c4_counterexample :
    cutClass.dtor = some cutDtor ∧
    "I" ∈ cutDtor.methodCalls ∧
    methodLookup cutClass.methods "I" = some cutI ∧
    "m" ∈ cutI.methodCalls ∧
    methodLookup cutClass.methods "m" = some cutM ∧
    (∃ dl ∈ cutM.deallocations, dl.varName = "x") ∧
    ("x", (⟨"x", false, 4⟩ : Allocation)) ∈ allocatedVars cutClass ∧
    missingLeaksFor cutClass "x" =
      [⟨"cut.cpp", 4, "Cut", "x", missingReason, "error"⟩] := by
  decide

/-- C4, amended: collection starts at the destructor with depth budget 5
and stops when the budget is exhausted.  Along the unobstructed chain of
chain4Class a method four invocation edges away is collected and
discharges the obligation; in chain6Class the deallocation five edges
away (a six-level-deep chain counting the destructor) is never collected
and Rule 1 fires; and in general, whenever no function within the
depth-bounded reach of the destructor deallocates the member or one of
its direct alias names, the Rule-1 leak is emitted.  A method within
four edges can however be missed when an intermediate function was first
visited at a lower remaining depth (see the counterexample). -/
theorem c4_depth_budget :
    (analyzeClass chain4Class = []) ∧
    (missingLeaksFor chain6Class "x" =
      [⟨"c6.cpp", 4, "Chain6", "x", missingReason, "error"⟩]) ∧
    (∀ (c : Class) (v : String) (alloc : Allocation) (f : Function),
      (v, alloc) ∈ allocatedVars c → (pointerMembers c).isEmpty = false →
      c.dtor = some f →
      (∀ n ∈ v :: aliasMapOf c v, ∀ g ∈ reachList c.methods MaxMethodDepth f,
        ∀ dl ∈ g.deallocations, dl.varName ≠ n) →
      missingLeaksFor c v = [⟨c.file, alloc.line, c.name, v, missingReason, "error"⟩]) := by
  refine ⟨by decide, by decide, ?_⟩
  intro c v alloc f hmem hpm hd hfar
  apply rule1_missing_emits c v alloc hmem hpm
  apply (isVarDeallocated_eq_false_iff v _ _).mpr
  intro n hn
  by_contra hne
  have hsome : (lookupKey (deallocatedVars c) n).isSome = true := by
    cases hh : lookupKey (deallocatedVars c) n with
    | none => exact absurd hh hne
    | some d => rfl
  rcases deallocatedVars_bound c f hd n hsome with ⟨g, hg, dl, hdl, hk⟩
  exact hfar n hn g hg dl hdl hk

/-- C4, witness: the general bound applied to chain6Class, whose only
deallocation sits outside the depth-5 reach of the destructor. -/
theorem c4_depth_budget_witness :
    missingLeaksFor chain6Class "x" =
      [⟨"c6.cpp", 4, "Chain6", "x", missingReason, "error"⟩] :=
  c4_depth_budget.2.2 chain6Class "x" ⟨"x", false, 4⟩ chain6Dtor
    (by decide) (by decide) (by decide) (by decide)

/-- C5: Rule 2 warns on an allocation a of method M exactly when the
allocated variable is a pointer member, M has no deallocation of it at
a strictly earlier line, and it was also allocated in the constructor;
the emitted leak has severity warning and line a.line, and it appears in
the full analysis.  In particular a method deleting x before
re-allocating it produces no warning. -/
theorem c5_reassignment (c : Class) (m : Function) (a : Allocation)
    (hm : m ∈ c.methods) (ha : a ∈ m.allocations) :
    (rule2For c (allocatedVars c) (pointerMembers c) m a =
        [⟨c.file, a.line, c.name, a.varName, rule2Reason m.name, "warning"⟩] ↔
      ((lookupKey (pointerMembers c) a.varName).isSome = true ∧
       (∀ dl ∈ m.deallocations, dl.varName = a.varName → ¬ dl.line < a.line) ∧
       (lookupKey (allocatedVars c) a.varName).isSome = true)) ∧
    (∀ l ∈ rule2For c (allocatedVars c) (pointerMembers c) m a, l ∈ analyzeClass c) := by
  refine ⟨?_, rule2For_mem_analyze c m a hm ha⟩
  unfold rule2For
  split_ifs with h1 h2 h3
  · have hno := (noDelBefore_iff m a).mp (by simpa using h2)
    exact iff_of_true rfl ⟨h1, hno, h3⟩
  · simp [h3]
  · have hany : (m.deallocations.any fun dl =>
        dl.varName = a.varName && dl.line < a.line) = true := by
      revert h2
      cases m.deallocations.any fun dl => dl.varName = a.varName && dl.line < a.line <;> simp
    rcases List.any_eq_true.mp hany with ⟨dl, hdl, hp⟩
    simp only [Bool.and_eq_true, decide_eq_true_eq] at hp
    constructor
    · intro he; exact absurd he (by simp)
    · rintro ⟨_, hno, _⟩
      exact absurd hp.2 (hno dl hdl hp.1)
  · simp [h1]

/-- C5, witness: reset of reassignClass re-allocates the member p with
no prior delete, producing the Rule-2 warning. -/
theorem c5_reassignment_witness :
    rule2For reassignClass (allocatedVars reassignClass) (pointerMembers reassignClass)
        reassignMethod ⟨"p", false, 11⟩ =
      [⟨"ra.cpp", 11, "Reassign", "p", rule2Reason "reset", "warning"⟩] :=
  ((c5_reassignment reassignClass reassignMethod ⟨"p", false, 11⟩
    (by decide) (by decide)).1).mpr (by decide)

/-- C6: for an alias of a method whose source is a pointer member,
deleting both the source and the target anywhere in the method yields
the double-free error leak at the alias line carrying the source name,
and it appears in the full analysis; when either deletion is absent no
Rule-3 leak is emitted for that alias. -/
theorem c6_double_free (c : Class) (m : Function) (al : PointerAlias)
    (hm : m ∈ c.methods) (hal : al ∈ m.aliases)
    (hsrc : (lookupKey (pointerMembers c) al.sourceVar).isSome = true) :
    ((∃ dl ∈ m.deallocations, dl.varName = al.sourceVar) →
      (∃ dl ∈ m.deallocations, dl.varName = al.targetVar) →
      rule3For c (pointerMembers c) m al =
        [⟨c.file, al.line, c.name, al.sourceVar, rule3Reason al.targetVar, "error"⟩] ∧
      (⟨c.file, al.line, c.name, al.sourceVar, rule3Reason al.targetVar, "error"⟩ : Leak) ∈
        analyzeClass c) ∧
    (((¬ ∃ dl ∈ m.deallocations, dl.varName = al.sourceVar) ∨
      (¬ ∃ dl ∈ m.deallocations, dl.varName = al.targetVar)) →
      rule3For c (pointerMembers c) m al = []) := by
  constructor
  · intro hs ht
    have hcond : ((m.deallocations.any fun dl => dl.varName = al.sourceVar) &&
        (m.deallocations.any fun dl => dl.varName = al.targetVar)) = true := by
      rw [Bool.and_eq_true]
      exact ⟨by simpa [List.any_eq_true] using hs, by simpa [List.any_eq_true] using ht⟩
    have heq : rule3For c (pointerMembers c) m al =
        [⟨c.file, al.line, c.name, al.sourceVar, rule3Reason al.targetVar, "error"⟩] := by
      unfold rule3For
      rw [if_pos hsrc, if_pos hcond]
    refine ⟨heq, ?_⟩
    apply rule3For_mem_analyze c m al hm hal
    rw [heq]
    exact List.mem_singleton_self _
  · intro hor
    unfold rule3For
    rw [if_pos hsrc]
    cases hsA : (m.deallocations.any fun dl => dl.varName = al.sourceVar) with
    | false => simp [hsA]
    | true =>
      cases htA : (m.deallocations.any fun dl => dl.varName = al.targetVar) with
      | false => simp [hsA, htA]
      | true =>
        exfalso
        rcases hor with hno | hno
        · exact hno (by simpa [List.any_eq_true] using hsA)
        · exact hno (by simpa [List.any_eq_true] using htA)

/-- C6, witness: the method of doubleFreeClass aliases alias2 to the
member orig and deletes both, producing the double-free error. -/
theorem c6_double_free_witness :
    rule3For doubleFreeClass (pointerMembers doubleFreeClass) doubleFreeMethod
        ⟨"orig", "alias2", 11⟩ =
      [⟨"df.cpp", 11, "DoubleFree", "orig", rule3Reason "alias2", "error"⟩] :=
  ((c6_double_free doubleFreeClass doubleFreeMethod ⟨"orig", "alias2", 11⟩
    (by decide) (by decide) (by decide)).1 (by decide) (by decide)).1

/-- C7, counterexample: merging a header record with an empty member
list into a non-header record keeps the target's members; the claim
that the header's members always replace them, also when empty, fails
here. -/
theorem c7_counterexample :
    isHeaderFile c7HeaderClass.file = true ∧
    isHeaderFile c7ImplClass.file = false ∧
    c7HeaderClass.members = [] ∧
    (mergeClassInto c7ImplClass c7HeaderClass).members = [c7ImplMember] ∧
    (mergeClassInto c7ImplClass c7HeaderClass).members ≠ c7HeaderClass.members := by
  decide

/-- C7, amended: when the incoming record is a header and the held one
is not, the held members are replaced by the header's members only when
the header's member list is nonempty, and kept otherwise; when the held
record is a header and the incoming one is not, the held members are
always kept. -/
theorem c7_members_merge (target source : Class) :
    (isHeaderFile source.file = true → isHeaderFile target.file = false →
      (mergeClassInto target source).members =
        if source.members.length > 0 then source.members else target.members) ∧
    (isHeaderFile target.file = true → isHeaderFile source.file = false →
      (mergeClassInto target source).members = target.members) := by
  constructor
  · intro hs ht
    unfold mergeClassInto
    simp [hs, ht]
  · intro ht hs
    unfold mergeClassInto
    simp [hs, ht]

/-- C7, witness: the amended rule applied to the concrete header and
implementation records. -/
theorem c7_members_merge_witness :
    (mergeClassInto c7ImplClass c7HeaderClass).members =
      if c7HeaderClass.members.length > 0 then c7HeaderClass.members
      else c7ImplClass.members :=
  (c7_members_merge c7ImplClass c7HeaderClass).1 (by decide) (by decide)

/-- C8: the traversal is a total function of the depth budget and, per
traversal, a function already in the visited set contributes nothing on
a second encounter, a method called twice from the same call list
contributes only once (the visited set is shared across siblings, not
per branch), the visited list stays duplicate-free, and the visited set
only grows. -/
theorem c8_visit_once :
    (∀ (methods : List Function) (d : Nat) (fn : Function) (st : CState),
      fn.name ∈ st.visited → collectDeallocations methods d fn st = st) ∧
    (∀ (methods : List Function) (d : Nat) (n : String) (rest : List String) (st : CState),
      collectFromCalls methods d (n :: n :: rest) st =
        collectFromCalls methods d (n :: rest) st) ∧
    (∀ (methods : List Function) (d : Nat) (fn : Function) (st : CState),
      st.visited.Nodup → (collectDeallocations methods d fn st).visited.Nodup) ∧
    (∀ (methods : List Function) (d : Nat) (fn : Function) (st : CState),
      st.visited ⊆ (collectDeallocations methods d fn st).visited) :=
  ⟨collect_visited_noop, collectFromCalls_dup,
   fun methods d => collect_visited_nodup methods d,
   fun methods d => collect_visited_mono methods d⟩

/-- C8, witness: a revisit of the already-visited destructor of
chainAliasClass leaves the state unchanged. -/
theorem c8_visit_once_witness :
    collectDeallocations chainAliasClass.methods 3 chainAliasDtor
        ⟨[], ["~ChainAlias"]⟩ = ⟨[], ["~ChainAlias"]⟩ :=
  c8_visit_once.1 chainAliasClass.methods 3 chainAliasDtor ⟨[], ["~ChainAlias"]⟩ (by decide)

/-- C9: on the input consisting of an unterminated block comment opener
followed by the single byte x, the lexer stops consuming one byte short
of the end of the input and emits an identifier token for that byte
before the End token, instead of consuming the whole comment silently. -/
theorem c9_unterminated_comment :
    (tokenize "/*x").map (fun t => (t.type, t.value)) =
      [(TokenType.ident, "x"), (TokenType.eof, "")] := by
  decide

/-- C10: a class whose destructor appears only as the bodyless
declaration inside the class body still gets a destructor Function with
no recorded deallocations attached by the parser; the analyzer then
emits no Rule-4 leak for any class with a destructor, and each
constructor-allocated, unreleased pointer member yields the Rule-1
missing-deallocation error. -/
theorem c10_bodyless_destructor :
    ((parseFirstClass c10src "t.cpp").map (fun c =>
        (c.dtor.map (fun f => (f.isDestructor, f.deallocations)),
         analyzeClass c, rule4Leaks c)) =
      some (some (true, []),
        [⟨"t.cpp", 1, "C", "x", missingReason, "error"⟩], [])) ∧
    (∀ (c : Class) (fn : Function), c.dtor = some fn → rule4Leaks c = []) ∧
    (∀ (c : Class) (v : String) (alloc : Allocation),
      (v, alloc) ∈ allocatedVars c → (pointerMembers c).isEmpty = false →
      (∀ n ∈ v :: aliasMapOf c v, lookupKey (deallocatedVars c) n = none) →
      missingLeaksFor c v = [⟨c.file, alloc.line, c.name, v, missingReason, "error"⟩]) := by
  refine ⟨by decide, ?_, ?_⟩
  · intro c fn hd
    unfold rule4Leaks
    rw [hd]
  · intro c v alloc hmem hpm hrel
    exact rule1_missing_emits c v alloc hmem hpm
      ((isVarDeallocated_eq_false_iff v _ _).mpr hrel)

/-- C10, witness: chain4Class has a destructor, so Rule 4 stays
silent. -/
theorem c10_bodyless_destructor_witness : rule4Leaks chain4Class = [] :=
  c10_bodyless_destructor.2.1 chain4Class chain4Dtor (by decide)

end LeakCheck
